import Mathlib

/-!
Verification of the streaming-chat client of the research-mentor web UI.

The TypeScript sources embedded here are
`src/web/src/store/useChatStore.ts` (the zustand conversation store) and
`src/web/src/components/MentorChat.tsx` (the transport client and the
read loop over the streaming response body).

JavaScript strings are embedded as lists of characters (`JStr`), so that
`String.prototype.split`, `trim`, regex scans and `JSON` string escaping
can be modelled as structural recursions.
-/

set_option maxRecDepth 10000

abbrev JStr := List Char

/-- Conversion of a Lean string literal to the character-list embedding. -/
def toL (s : String) : JStr := s.toList

/-- Concatenation of a list of strings, used to describe how a byte stream
is assembled from the physical reads delivered to the read loop. -/
def joinL (l : List JStr) : JStr := l.foldr (fun a b => a ++ b) []

/-- The whitespace class removed by JavaScript `String.prototype.trim`
(restricted to the ASCII part, which is all the client ever feeds it). -/
def isJsWs (c : Char) : Bool :=
  c = ' ' || c = '\t' || c = '\n' || c = '\r' || c = '\x0b' || c = '\x0c'

/-- Model of JavaScript `s.trim()`: strip the whitespace class from both ends. -/
def trimL (s : JStr) : JStr :=
  ((s.dropWhile isJsWs).reverse.dropWhile isJsWs).reverse

/-- Model of JavaScript `s.startsWith(pat)` (exact, case-sensitive). -/
def leadsWith : JStr → JStr → Bool
  | [], _ => true
  | _ :: _, [] => false
  | p :: ps, c :: cs => (p == c) && leadsWith ps cs

/-- Case-insensitive prefix test: the pattern is given in lower case and each
stream character is lowered before comparison, as the `i` regex flag does. -/
def leadsWithCI : JStr → JStr → Bool
  | [], _ => true
  | _ :: _, [] => false
  | p :: ps, c :: cs => (p == c.toLower) && leadsWithCI ps cs

/-- First case-insensitive occurrence of `pat` in a string: returns the part
before the match and the part after it.  This is the scan a regex engine
performs for a literal pattern under the `i` flag. -/
def splitAtCI (pat : JStr) : JStr → Option (JStr × JStr)
  | [] => if leadsWithCI pat [] then some ([], []) else none
  | c :: r =>
    if leadsWithCI pat (c :: r) then some ([], (c :: r).drop pat.length)
    else (splitAtCI pat r).map (fun pr => (c :: pr.1, pr.2))

/-- The inline thinking markup delimiters handled by the client. -/
def opnTag : JStr := toL ("<thinking>")

def clsTag : JStr := toL ("</thinking>")

/-- Scanner underlying `stripThinkingTags`, structurally recursive on a
fuel argument; one character is consumed per step, so any fuel of at least
the string length makes the zero-fuel clause unreachable. -/
def stripTagsGo : Nat → JStr → JStr
  | _, [] => []
  | 0, c :: r => c :: r
  | f + 1, c :: r =>
    if leadsWithCI clsTag (c :: r) then stripTagsGo f ((c :: r).drop 11)
    else if leadsWithCI opnTag (c :: r) then stripTagsGo f ((c :: r).drop 10)
    else c :: stripTagsGo f r

/-- Model of `stripThinkingTags` in MentorChat.tsx:
`text.replace(/<\/?thinking>/gi, '')` removes every case-insensitive
occurrence of either delimiter, scanning left to right. -/
def stripThinkingTags (s : JStr) : JStr := stripTagsGo s.length s

/-- The first `<thinking>…</thinking>` span of a string, case-insensitive and
non-greedy, as matched by `/<thinking>([\s\S]*?)<\/thinking>/i`: the part
before the opening tag, the captured group, and the part after the closing
tag.  `none` when the regex does not match (also when an opening tag is never
followed by a closing tag: a later opening tag cannot have a closing tag after
it either, so the engine finds no match at all). -/
def thinkFirst (s : JStr) : Option (JStr × JStr × JStr) :=
  match splitAtCI opnTag s with
  | none => none
  | some (pre, rest) =>
    match splitAtCI clsTag rest with
    | none => none
    | some (inner, post) => some (pre, inner, post)

/-- Scanner underlying `stripSpansAll`, structurally recursive on a fuel
argument consumed one unit per step; removing a span shortens the string by
more than one character, so fuel at least the string length suffices. -/
def stripSpansGo : Nat → JStr → JStr
  | _, [] => []
  | 0, c :: r => c :: r
  | f + 1, c :: r =>
    if leadsWithCI opnTag (c :: r) then
      match splitAtCI clsTag ((c :: r).drop 10) with
      | none => c :: r
      | some (_, post) => stripSpansGo f post
    else c :: stripSpansGo f r

/-- Model of `finalContent.replace(/<thinking>[\s\S]*?<\/thinking>/gi, '')`:
remove every non-overlapping non-greedy thinking span, scanning left to
right; an opening tag without a closing tag leaves the remainder intact. -/
def stripSpansAll (s : JStr) : JStr := stripSpansGo s.length s

/-- Model of JavaScript `s.split('\n\n')`: leftmost non-overlapping splitting
on the two-character blank-line delimiter.  The result is never empty; the
last element is the remainder after the final delimiter (possibly empty). -/
def splitNN : JStr → List JStr
  | [] => [[]]
  | [c] => [[c]]
  | c₁ :: c₂ :: r =>
    if c₁ = '\n' ∧ c₂ = '\n' then [] :: splitNN r
    else
      match splitNN (c₂ :: r) with
      | [] => [[c₁]]
      | h :: t => (c₁ :: h) :: t

/-- Last element of a list of strings, with the empty string as default;
models `lines.pop() || ""` applied to the (never empty) result of a split. -/
def lastD : List JStr → JStr
  | [] => []
  | [a] => a
  | _ :: b :: t => lastD (b :: t)

/-! ### The wire format

The streaming endpoint (the backend server is not part of this repository;
its wire format is taken from the specification of `POST /api/chat/stream`)
emits frames `data: <json>\n\n` where `<json>` is an object with a `type`
discriminator in `reasoning | content | done | error` and, except for `done`,
a `content` string field.  `jsonEscape`/`parseStrLit` model JSON string
encoding and `JSON.parse`'s string decoding on exactly these shapes. -/

inductive SEvent where
  | reasoning (s : JStr)
  | content (s : JStr)
  | done
  | error (s : JStr)
deriving DecidableEq

/-- JSON string escaping as performed by the serializer of the frames:
quote, backslash and the line-break and tab controls are escaped, everything
else is emitted verbatim.  No emitted character is a raw line feed, which is
what keeps frame payloads free of the blank-line delimiter. -/
def jsonEscape : JStr → JStr
  | [] => []
  | c :: r =>
    (if c = '"' then ['\\', '"']
     else if c = '\\' then ['\\', '\\']
     else if c = '\n' then ['\\', 'n']
     else if c = '\r' then ['\\', 'r']
     else if c = '\t' then ['\\', 't']
     else [c]) ++ jsonEscape r

/-- Decoding of one escape character, the inverse of the escapes emitted by
`jsonEscape` (identity on the self-representing escapes quote and
backslash). -/
def unesc (e : Char) : Char :=
  if e = 'n' then '\n' else if e = 'r' then '\r' else if e = 't' then '\t' else e

/-- Model of `JSON.parse`'s string-literal scanner: consume characters up to
the first unescaped quote, undoing the escapes of `jsonEscape`, and return
the decoded string together with the rest of the input.  A dangling
backslash at the end of the input is a parse failure. -/
def parseStrLit : JStr → Option (JStr × JStr)
  | [] => none
  | c :: r =>
    if c = '"' then some ([], r)
    else if c = '\\' then
      match r with
      | [] => none
      | e :: r2 => (parseStrLit r2).map (fun pr => (unesc e :: pr.1, pr.2))
    else (parseStrLit r).map (fun pr => (c :: pr.1, pr.2))

/-- Exact-prefix stripper, the building block of the shape-restricted
`JSON.parse` model. -/
def stripLead (pat s : JStr) : Option JStr :=
  if leadsWith pat s then some (s.drop pat.length) else none

def hdrP : JStr := toL ("\x7b\"type\":\"")

def sepP : JStr := toL (",\"content\":\"")

/-- Serialization of one frame body, per the wire format of the streaming
endpoint: an object with the `type` field and, except for `done`, the
`content` field. -/
def encodePayload : SEvent → JStr
  | SEvent.done => hdrP ++ toL ("done") ++ '"' :: '\x7d' :: []
  | SEvent.reasoning s =>
    hdrP ++ toL ("reasoning") ++ '"' :: (sepP ++ (jsonEscape s ++ '"' :: '\x7d' :: []))
  | SEvent.content s =>
    hdrP ++ toL ("content") ++ '"' :: (sepP ++ (jsonEscape s ++ '"' :: '\x7d' :: []))
  | SEvent.error s =>
    hdrP ++ toL ("error") ++ '"' :: (sepP ++ (jsonEscape s ++ '"' :: '\x7d' :: []))

/-- Model of `JSON.parse(line.slice(6))` followed by the `event.type`
dispatch of the read loop, restricted to the object shapes of the wire
format; any other input is reported as a parse failure, which the read loop
skips (`catch (parseErr) ... continue`), matching the treatment of frames
whose type is unknown or whose `content` field is missing where the
dispatch takes no branch. -/
def parsePayload (p : JStr) : Option SEvent :=
  match stripLead hdrP p with
  | none => none
  | some r1 =>
    match parseStrLit r1 with
    | none => none
    | some (ty, r2) =>
      if ty = toL ("done") then
        if r2 = ['\x7d'] then some SEvent.done else none
      else
        match stripLead sepP r2 with
        | none => none
        | some r3 =>
          match parseStrLit r3 with
          | none => none
          | some (s, r4) =>
            if r4 = ['\x7d'] then
              if ty = toL ("reasoning") then some (SEvent.reasoning s)
              else if ty = toL ("content") then some (SEvent.content s)
              else if ty = toL ("error") then some (SEvent.error s)
              else none
            else none

def dataLit : JStr := toL ("data: ")

/-- One complete frame line as it appears among the results of splitting the
stream on blank lines. -/
def lineFor (f : SEvent) : JStr := dataLit ++ encodePayload f

/-- The full encoded byte stream for a sequence of frames: each frame line
followed by the blank-line delimiter. -/
def encodeStream : List SEvent → JStr
  | [] => []
  | f :: r => lineFor f ++ '\n' :: '\n' :: encodeStream r

/-! ### The data model of `useChatStore.ts` -/

inductive Role where
  | user
  | ai
deriving DecidableEq

inductive AttKind where
  | image
deriving DecidableEq

structure ChatAttachment where
  id : JStr
  name : JStr
  kind : AttKind
  dataUrl : JStr
  size : Nat
  uploadedAt : Nat
deriving DecidableEq

inductive TCStatus where
  | calling
  | executing
  | completed
  | error
deriving DecidableEq

structure ToolCall where
  id : JStr
  name : JStr
  status : TCStatus
  result : Option JStr
deriving DecidableEq

/-- A chat message.  In the source `attachments` is stored only when
non-empty and read back with `|| []`; it is embedded as a plain list, with
the empty list standing for the absent field.  `thinking` and `toolCalls`
are genuinely optional (`undefined` is observable), so they are `Option`. -/
structure Msg where
  role : Role
  content : JStr
  thinking : Option JStr
  attachments : List ChatAttachment
  toolCalls : Option (List ToolCall)
deriving DecidableEq

structure ChatConversation where
  id : JStr
  title : JStr
  messages : List Msg
  createdAt : Nat
  updatedAt : Nat
deriving DecidableEq

structure ChatState where
  messages : List Msg
  isLoading : Bool
  isStreaming : Bool
  streamingContent : JStr
  streamingReasoning : JStr
  streamingToolCalls : List ToolCall
  conversations : List ChatConversation
  currentConversationId : Option JStr
deriving DecidableEq

def greeting : Msg :=
  ⟨Role.ai,
   toL ("Hello! I'm your research mentor. How can I help you refine your hypothesis today?"),
   none, [], none⟩

def initialState : ChatState :=
  ⟨[greeting], false, false, [], [], [], [], none⟩

/-- Decimal digits of a natural number, as JavaScript `Number.toString()`
renders the integers used here. -/
def natChars (n : Nat) : JStr := (Nat.repr n).toList

/-- JavaScript `String.padStart(2, '0')` applied to a decimal rendering. -/
def pad2 (n : Nat) : JStr :=
  if n < 10 then '0' :: natChars n else natChars n

/-- `generatePlaceholderTitle` of the store: the fixed format
`New chat HH:MM` built from the current local hours and minutes, each
zero-padded to two digits. -/
def generatePlaceholderTitle (hh mm : Nat) : JStr :=
  toL ("New chat ") ++ pad2 hh ++ ':' :: pad2 mm

/-- The conversation id `chat-${Date.now()}` derived from submission time. -/
def chatId (now : Nat) : JStr := toL ("chat-") ++ natChars now

def untitledTitle : JStr := toL ("Untitled chat")

/-- `upsertConversation` of the store: replace the first conversation with a
matching id, or append when the id is absent (`findIndex === -1`). -/
def upsertConversation : List ChatConversation → ChatConversation → List ChatConversation
  | [], c => [c]
  | x :: xs, c => if x.id = c.id then c :: xs else x :: upsertConversation xs c

def setLoading (st : ChatState) (v : Bool) : ChatState :=
  { st with isLoading := v }

/-- `setStreaming`: entering streaming clears all three in-flight buffers;
leaving it keeps them. -/
def setStreaming (st : ChatState) (v : Bool) : ChatState :=
  { st with
    isStreaming := v
    streamingContent := if v then [] else st.streamingContent
    streamingReasoning := if v then [] else st.streamingReasoning
    streamingToolCalls := if v then [] else st.streamingToolCalls }

def appendContent (st : ChatState) (chunk : JStr) : ChatState :=
  { st with streamingContent := st.streamingContent ++ chunk }

def appendReasoning (st : ChatState) (chunk : JStr) : ChatState :=
  { st with streamingReasoning := st.streamingReasoning ++ chunk }

def addToolCall (st : ChatState) (tc : ToolCall) : ChatState :=
  { st with streamingToolCalls := st.streamingToolCalls ++ [tc] }

/-- `updateToolCall`: map over the buffer, rewriting every entry whose `name`
matches; the spread `...(result ? { result } : {})` overrides the stored
result only when the argument is present and non-empty (JavaScript
truthiness of a string). -/
def updateToolCall (st : ChatState) (name : JStr) (status : TCStatus)
    (result : Option JStr) : ChatState :=
  { st with
    streamingToolCalls := st.streamingToolCalls.map (fun tc =>
      if tc.name = name then
        { tc with
          status := status
          result := match result with
            | some r => if r = [] then tc.result else some r
            | none => tc.result }
      else tc) }

/-- `addUserMessage`.  `Date.now()` and the wall-clock hours/minutes are
passed as the parameters `now`, `hh`, `mm` (the source reads the clock
several times inside one call; those reads are modelled as one instant).
The JavaScript falsiness checks `?.title || 'Untitled chat'` and
`?.createdAt || Date.now()` treat the empty string and `0` as absent, which
the embedded definition reproduces. -/
def addUserMessage (st : ChatState) (content : JStr)
    (attachments : List ChatAttachment) (now hh mm : Nat) : ChatState :=
  let hasConversation := st.currentConversationId.isSome
  let convoId := match st.currentConversationId with
    | some i => i
    | none => chatId now
  let isFirstUser := (st.messages.filter (fun m => m.role == Role.user)).length = 0
  let title :=
    if isFirstUser then generatePlaceholderTitle hh mm
    else match st.conversations.find? (fun c => c.id == convoId) with
      | some c => if c.title = [] then untitledTitle else c.title
      | none => untitledTitle
  let updatedMessages := st.messages ++ [⟨Role.user, content, none, attachments, none⟩]
  let createdAt :=
    if hasConversation then
      match st.conversations.find? (fun c => c.id == convoId) with
      | some c => if c.createdAt = 0 then now else c.createdAt
      | none => now
    else now
  let convo : ChatConversation := ⟨convoId, title, updatedMessages, createdAt, now⟩
  { st with
    messages := updatedMessages
    currentConversationId := some convoId
    conversations := upsertConversation st.conversations convo }

def addAiMessage (st : ChatState) (content : JStr) (thinking : Option JStr)
    (now : Nat) : ChatState :=
  let convoId := match st.currentConversationId with
    | some i => i
    | none => chatId now
  let updatedMessages := st.messages ++ [⟨Role.ai, content, thinking, [], none⟩]
  let existing := st.conversations.find? (fun c => c.id == convoId)
  let title := match existing with
    | some c => if c.title = [] then untitledTitle else c.title
    | none => untitledTitle
  let createdAt := match existing with
    | some c => if c.createdAt = 0 then now else c.createdAt
    | none => now
  let convo : ChatConversation := ⟨convoId, title, updatedMessages, createdAt, now⟩
  { st with
    messages := updatedMessages
    currentConversationId := some convoId
    conversations := upsertConversation st.conversations convo }

def noContentText : JStr := toL ("(No content)")

/-- `finalizeStream`: when anything is pending (trimmed content, trimmed
reasoning, or buffered tool calls), build the assistant message — falling
back to extracting inline thinking markup when no reasoning was streamed —
append it, and clear all transient streaming state; otherwise do nothing. -/
def finalizeStream (st : ChatState) (now : Nat) : ChatState :=
  if trimL st.streamingContent ≠ [] ∨ trimL st.streamingReasoning ≠ [] ∨
      st.streamingToolCalls ≠ [] then
    let finalContent0 := trimL st.streamingContent
    let finalReasoning0 := trimL st.streamingReasoning
    let extracted :=
      if finalReasoning0 = [] ∧ finalContent0 ≠ [] then
        match thinkFirst finalContent0 with
        | some (_, inner, _) => (trimL inner, trimL (stripSpansAll finalContent0))
        | none => (finalReasoning0, finalContent0)
      else (finalReasoning0, finalContent0)
    let finalReasoning := extracted.1
    let finalContent := extracted.2
    let msg : Msg :=
      ⟨Role.ai,
       if finalContent = [] then noContentText else finalContent,
       if finalReasoning = [] then none else some finalReasoning,
       [],
       if st.streamingToolCalls ≠ [] then some st.streamingToolCalls else none⟩
    let updatedMessages := st.messages ++ [msg]
    let convoId := match st.currentConversationId with
      | some i => i
      | none => chatId now
    let existing := st.conversations.find? (fun c => c.id == convoId)
    let title := match existing with
      | some c => if c.title = [] then untitledTitle else c.title
      | none => untitledTitle
    let createdAt := match existing with
      | some c => if c.createdAt = 0 then now else c.createdAt
      | none => now
    let convo : ChatConversation := ⟨convoId, title, updatedMessages, createdAt, now⟩
    { st with
      messages := updatedMessages
      streamingContent := []
      streamingReasoning := []
      streamingToolCalls := []
      isStreaming := false
      currentConversationId := some convoId
      conversations := upsertConversation st.conversations convo }
  else st

def resetStore (st : ChatState) : ChatState :=
  { st with
    messages := [greeting]
    isLoading := false
    isStreaming := false
    streamingContent := []
    streamingReasoning := []
    streamingToolCalls := []
    currentConversationId := none }

def startNewChat (st : ChatState) : ChatState :=
  { st with
    messages := [greeting]
    isLoading := false
    isStreaming := false
    streamingContent := []
    streamingReasoning := []
    streamingToolCalls := []
    currentConversationId := none }

def loadConversation (st : ChatState) (id : JStr) : ChatState :=
  match st.conversations.find? (fun c => c.id == id) with
  | none => st
  | some convo =>
    { st with
      messages := if convo.messages = [] then [greeting] else convo.messages
      currentConversationId := some convo.id
      isLoading := false
      isStreaming := false
      streamingContent := []
      streamingReasoning := []
      streamingToolCalls := [] }

def deleteConversation (st : ChatState) (id : JStr) : ChatState :=
  let remaining := st.conversations.filter (fun c => c.id != id)
  if st.currentConversationId = some id then
    { st with
      conversations := remaining
      currentConversationId := none
      messages := [greeting]
      isLoading := false
      isStreaming := false
      streamingContent := []
      streamingReasoning := []
      streamingToolCalls := [] }
  else { st with conversations := remaining }

def renameConversation (st : ChatState) (id : JStr) (title : JStr)
    (now : Nat) : ChatState :=
  { st with
    conversations := st.conversations.map (fun c =>
      if c.id = id then { c with title := title, updatedAt := now } else c) }

/-! ### The read loop and dispatch of `handleSubmit` (MentorChat.tsx) -/

/-- Processing of one complete line of the split stream, as the body of
`for (const line of lines)`: lines without the `data: ` marker are skipped,
the payload after the marker is decoded, and the event dispatched.  A
`reasoning`/`content` event is applied only when its text is truthy
(non-empty); `content` text is passed through `stripThinkingTags`; `done`
finalizes; `error` appends an assistant message with the prefixed error text
and stops streaming.  Undecodable payloads are skipped. -/
def handleLine (now : Nat) (st : ChatState) (line : JStr) : ChatState :=
  if leadsWith dataLit line then
    match parsePayload (line.drop 6) with
    | some (SEvent.reasoning s) => if s = [] then st else appendReasoning st s
    | some (SEvent.content s) =>
      if s = [] then st else appendContent st (stripThinkingTags s)
    | some SEvent.done => finalizeStream st now
    | some (SEvent.error s) =>
      setStreaming (addAiMessage st (toL ("Error: ") ++ s) none now) false
    | none => st
  else st

/-- Fold of `handleLine` over the complete lines of one read, also returning
the store state after each processed line (the states a subscriber of the
store can observe during the loop). -/
def processLines (now : Nat) : ChatState → List JStr → ChatState × List ChatState
  | st, [] => (st, [])
  | st, l :: ls =>
    let st1 := handleLine now st l
    let r := processLines now st1 ls
    (r.1, st1 :: r.2)

structure RunRes where
  st : ChatState
  buf : JStr
  tr : List ChatState
deriving DecidableEq

/-- The read loop of `handleSubmit`: per read, append the decoded chunk to
the carry buffer, split on blank lines, keep the last piece as the new carry
buffer (`buffer = lines.pop() || ""`), and process the complete lines. -/
def runReads (now : Nat) : ChatState → JStr → List JStr → RunRes
  | st, buf, [] => ⟨st, buf, []⟩
  | st, buf, chunk :: rest =>
    let parts := splitNN (buf ++ chunk)
    let pl := processLines now st parts.dropLast
    let r := runReads now pl.1 (lastD parts) rest
    ⟨r.st, r.buf, pl.2 ++ r.tr⟩

inductive CPart where
  | textPart (text : JStr)
  | imagePart (url : JStr)
deriving DecidableEq

structure Payload where
  prompt : JStr
  documentContext : Option JStr
  contentParts : List CPart
deriving DecidableEq

inductive ReqKind where
  | streamReq
  | chatReq
deriving DecidableEq

/-- `buildContentParts`: optional context text part, then the prompt part,
then one image part per pending attachment. -/
def buildContentParts (text ctx : JStr) (images : List ChatAttachment) : List CPart :=
  (if ctx ≠ [] then [CPart.textPart (toL ("Context:\n") ++ ctx)] else []) ++
  [CPart.textPart text] ++ images.map (fun i => CPart.imagePart i.dataUrl)

/-- The truncated four-line description of one attachment emitted by
`buildImageContext` (name, ISO-8601 upload timestamp, size in kilobytes with
one decimal place, payload truncated to 200 characters). -/
def natCharsPad (w : Nat) (n : Nat) : JStr :=
  let d := natChars n
  List.replicate (w - d.length) '0' ++ d

/-- Model of `new Date(t).toISOString()` for a non-negative millisecond
timestamp: the proleptic Gregorian calendar conversion (the standard
civil-from-days algorithm) rendered as `YYYY-MM-DDTHH:mm:ss.sssZ`. -/
def toISO (t : Nat) : JStr :=
  let ms := t % 1000
  let sec := (t / 1000) % 60
  let minu := (t / 60000) % 60
  let hr := (t / 3600000) % 24
  let days := t / 86400000
  let z := days + 719468
  let era := z / 146097
  let doe := z % 146097
  let yoe := (doe - doe / 1460 + doe / 36524 - doe / 146096) / 365
  let y := yoe + era * 400
  let doy := doe - (365 * yoe + yoe / 4 - yoe / 100)
  let mp := (5 * doy + 2) / 153
  let d := doy - (153 * mp + 2) / 5 + 1
  let m := if mp < 10 then mp + 3 else mp - 9
  let yr := if m ≤ 2 then y + 1 else y
  natCharsPad 4 yr ++ '-' :: pad2 m ++ '-' :: pad2 d ++
    'T' :: pad2 hr ++ ':' :: pad2 minu ++ ':' :: pad2 sec ++
    '.' :: natCharsPad 3 ms ++ ['Z']

/-- Model of `(size / 1024).toFixed(1)`: the quotient is exact in binary
floating point for any realistic size, and `toFixed` rounds it to the
nearest tenth, ties away from zero, which over the exact rationals is
`⌊(size·20 + 1024) / 2048⌋` tenths. -/
def kbStr (size : Nat) : JStr :=
  let n := (size * 20 + 1024) / 2048
  natChars (n / 10) ++ '.' :: natChars (n % 10)

def attBlock (att : ChatAttachment) : JStr :=
  List.intercalate ['\n']
    [toL ("Image: ") ++ att.name,
     toL ("Uploaded: ") ++ toISO att.uploadedAt,
     toL ("Size: ") ++ kbStr att.size ++ toL (" KB"),
     toL ("DataURL (truncated): ") ++
       (if 200 < att.dataUrl.length then att.dataUrl.take 200 ++ toL ("...")
        else att.dataUrl)]

/-- The `Set`-based first-seen deduplication of `buildImageContext`. -/
def dedupById : List ChatAttachment → List JStr → List ChatAttachment
  | [], _ => []
  | a :: r, seen =>
    if seen.contains a.id then dedupById r seen
    else a :: dedupById r (a.id :: seen)

/-- `buildImageContext(pending)`: image attachments of the stored messages,
then the pending ones, deduplicated by id; empty set yields the empty
string; otherwise the last six blocks joined by a blank line
(`unique.slice(-6)`). -/
def buildImageContext (st : ChatState) (pending : List ChatAttachment) : JStr :=
  let existing := ((st.messages.map (fun m => m.attachments)).flatten).filter
    (fun a => a.kind == AttKind.image)
  let combined := existing ++ pending
  let unique := dedupById combined []
  if unique.length = 0 then []
  else
    List.intercalate (toL ("\n\n"))
      ((unique.drop (unique.length - 6)).map attBlock)

/-- `parseResponse` of MentorChat.tsx (used on the non-streaming fallback
body): extract the first inline thinking span, case-insensitive and
non-greedy, strip that one span (the regex here has no `g` flag) and trim;
without a match the content is returned untouched. -/
def parseResponse (full : JStr) : Option JStr × JStr :=
  match thinkFirst full with
  | some (pre, inner, post) => (some (trimL inner), trimL (pre ++ post))
  | none => (none, full)

structure FallbackJson where
  response : JStr
  reasoning : Option JStr
deriving DecidableEq

/-- The behaviour of the two HTTP endpoints as observed by one submit:
whether the streaming response was accepted (`ok` status) and its body
(`none` models a missing/null body, otherwise the list of physical reads),
and whether the non-streaming fallback succeeds and with which JSON body
(`none` models an unparsable body). -/
structure Env where
  streamOk : Bool
  streamBody : Option (List JStr)
  fallbackOk : Bool
  fallbackJson : Option FallbackJson
deriving DecidableEq

structure RunOut where
  state : ChatState
  trace : List ChatState
  requests : List (ReqKind × Payload)
deriving DecidableEq

def imgCtxHeader : JStr := toL ("Images available this chat:\n")

def sorryText : JStr := toL ("Sorry, I encountered an error connecting to the backend.")

/-- The request payload built by `handleSubmit` before the `fetch` calls:
note that `buildImageContext` runs on the store state after
`addUserMessage`, so the just-attached pending images are both stored and
pending and survive only once through the deduplication. -/
def payloadOf (st : ChatState) (input : JStr) (pending : List ChatAttachment)
    (docCtx : JStr) (now hh mm : Nat) : Payload :=
  let st1 := addUserMessage st input pending now hh mm
  let imageContext := buildImageContext st1 pending
  let combinedContext :=
    List.intercalate (toL ("\n\n"))
      (([docCtx,
         if imageContext ≠ [] then imgCtxHeader ++ imageContext else []]).filter
        (fun s => ¬ s.isEmpty))
  ⟨input,
   if combinedContext = [] then none else some combinedContext,
   buildContentParts input combinedContext pending⟩

/-- `handleSubmit` of MentorChat.tsx for one turn, as a function of the
initial store state, the inputs, the wall clock and the endpoint behaviour.
It returns the final store state, the trace of store states after each
`set` of the store (the observable intermediate states), and the log of
HTTP requests issued.  Mid-stream read exceptions are not modelled: the
stream either is rejected up front or delivers its reads. -/
def runSubmit (st : ChatState) (input : JStr) (pending : List ChatAttachment)
    (docCtx : JStr) (now hh mm : Nat) (env : Env) : RunOut :=
  if trimL input = [] then ⟨st, [], []⟩
  else
    let st1 := addUserMessage st input pending now hh mm
    let st2 := setLoading st1 true
    let payload := payloadOf st input pending docCtx now hh mm
    match env.streamOk, env.streamBody with
    | true, some reads =>
      let st3 := setStreaming st2 true
      let st4 := setLoading st3 false
      let r := runReads now st4 [] reads
      let st6 := finalizeStream r.st now
      ⟨st6, [st1, st2, st3, st4] ++ r.tr ++ [st6], [(ReqKind.streamReq, payload)]⟩
    | _, _ =>
      let reqs := [(ReqKind.streamReq, payload), (ReqKind.chatReq, payload)]
      match env.fallbackOk, env.fallbackJson with
      | true, some j =>
        let parsed := parseResponse j.response
        let thinking := match j.reasoning with
          | some r => if r = [] then parsed.1 else some r
          | none => parsed.1
        let st5 := addAiMessage st2 parsed.2 thinking now
        let st6 := setStreaming st5 false
        let st7 := setLoading st6 false
        ⟨st7, [st1, st2, st5, st6, st7], reqs⟩
      | _, _ =>
        let st5 := addAiMessage st2 sorryText none now
        let st6 := setStreaming st5 false
        let st7 := setLoading st6 false
        ⟨st7, [st1, st2, st5, st6, st7], reqs⟩

/-! ### The store operations quantified over by the collection invariant -/

inductive Op where
  | opAddUser (content : JStr) (atts : List ChatAttachment) (now hh mm : Nat)
  | opAddAi (content : JStr) (thinking : Option JStr) (now : Nat)
  | opFinalize (now : Nat)
  | opLoad (id : JStr)
  | opDelete (id : JStr)
  | opNewChat
  | opRename (id : JStr) (title : JStr) (now : Nat)
  | opReset

def applyOp (st : ChatState) : Op → ChatState
  | Op.opAddUser content atts now hh mm => addUserMessage st content atts now hh mm
  | Op.opAddAi content thinking now => addAiMessage st content thinking now
  | Op.opFinalize now => finalizeStream st now
  | Op.opLoad id => loadConversation st id
  | Op.opDelete id => deleteConversation st id
  | Op.opNewChat => startNewChat st
  | Op.opRename id title now => renameConversation st id title now
  | Op.opReset => resetStore st

def runOps (ops : List Op) : ChatState := ops.foldl applyOp initialState

/-- The collection invariant: conversation ids are pairwise distinct, and
the current id, when set, belongs to a stored conversation. -/
def StoreInv (st : ChatState) : Prop :=
  (st.conversations.map (fun c => c.id)).Nodup ∧
  (match st.currentConversationId with
   | none => True
   | some j => ∃ c ∈ st.conversations, c.id = j)

/-! ### Spec-side restatements used by the refinement claims -/

/-- The attachment-context builder as the specification words it: combine
stored and pending attachments, deduplicate by id preserving first-seen
order, keep the most recent six, emit the four-line blocks joined by a
blank line, and return the empty string for an empty result set. -/
def specImageContext (stored pending : List ChatAttachment) : JStr :=
  let uniq := (stored ++ pending).foldl
    (fun acc a => if (acc.map (fun b => b.id)).contains a.id then acc else acc ++ [a]) []
  let kept := (uniq.reverse.take 6).reverse
  if kept.isEmpty then []
  else List.intercalate (toL ("\n\n")) (kept.map attBlock)

/-- The per-frame chunk classification used to state the framing claim. -/
def isChunk : SEvent → Bool
  | SEvent.reasoning _ => true
  | SEvent.content _ => true
  | _ => false

/-- Concatenation of the reasoning chunks of a frame sequence, in arrival
order. -/
def reasoningText (fs : List SEvent) : JStr :=
  (fs.map (fun f => match f with | SEvent.reasoning s => s | _ => [])).flatten

/-- Concatenation of the content chunks of a frame sequence in arrival
order, each chunk passed through the per-chunk thinking-tag stripping that
the read loop applies before buffering. -/
def contentTextStripped (fs : List SEvent) : JStr :=
  (fs.map (fun f => match f with
    | SEvent.content s => stripThinkingTags s
    | _ => [])).flatten

/-- Concatenation of the content chunks verbatim (the quantity the framing
claim names). -/
def contentText (fs : List SEvent) : JStr :=
  (fs.map (fun f => match f with | SEvent.content s => s | _ => [])).flatten

/-- Side condition for exact-text statements about `trim`: the string
neither begins nor ends with a whitespace character. -/
def noEdgeWsB (s : JStr) : Bool :=
  (match s.head? with | some c => !isJsWs c | none => true) &&
  (match s.getLast? with | some c => !isJsWs c | none => true)

/-- Eight pairwise-distinct image attachments used to instantiate the
attachment-cap property of the context builder at a concrete input. -/
def wAtt (i : Nat) : ChatAttachment :=
  { id := natChars i, name := natChars i, kind := AttKind.image,
    dataUrl := natChars i, size := i, uploadedAt := i }

def wAtts : List ChatAttachment := (List.range 8).map wAtt

/-! ## Lemmas about the blank-line splitter -/

theorem splitNN_ne_nil : ∀ s : JStr, splitNN s ≠ [] := by
  intro s
  induction s using splitNN.induct with
  | case1 => simp [splitNN]
  | case2 c => simp [splitNN]
  | case3 c₁ c₂ r h ih => simp [splitNN, h]
  | case4 c₁ c₂ r h heq ih => exact absurd heq ih
  | case5 c₁ c₂ r h hd tl heq ih => simp [splitNN, h, heq]

theorem splitNN_singleton : ∀ s h : JStr, splitNN s = [h] → h = s := by
  intro s
  induction s using splitNN.induct with
  | case1 => intro h hh; simp [splitNN] at hh; simp [hh]
  | case2 c => intro h hh; simp [splitNN] at hh; simp [hh]
  | case3 c₁ c₂ r hc ih =>
    intro h hh
    simp [splitNN, hc] at hh
    exact absurd hh.2 (splitNN_ne_nil r)
  | case4 c₁ c₂ r hc heq ih => exact absurd heq (splitNN_ne_nil _)
  | case5 c₁ c₂ r hc hd tl heq ih =>
    intro h hh
    simp [splitNN, hc, heq] at hh
    obtain ⟨h1, h2⟩ := hh
    subst h2
    have := ih hd (by simpa using heq)
    simp [h1, ← this]

theorem lastD_cons_cons (a b : JStr) (t : List JStr) :
    lastD (a :: b :: t) = lastD (b :: t) := rfl

theorem lastD_append_of_ne_nil : ∀ (A B : List JStr), B ≠ [] →
    lastD (A ++ B) = lastD B := by
  intro A
  induction A with
  | nil => intro B _; rfl
  | cons a A ih =>
    intro B hB
    have h1 : A ++ B ≠ [] := by
      intro hc
      exact hB (List.append_eq_nil.mp hc).2
    obtain ⟨x, xs, hx⟩ := List.exists_cons_of_ne_nil h1
    calc lastD (a :: A ++ B) = lastD (a :: (A ++ B)) := by simp
      _ = lastD (A ++ B) := by rw [hx]; exact lastD_cons_cons a x xs
      _ = lastD B := ih B hB

theorem lastD_concat (A : List JStr) (x : JStr) : lastD (A ++ [x]) = x := by
  rw [lastD_append_of_ne_nil A [x] (by simp)]
  rfl

/-- The incremental-splitting composition law: splitting `x ++ y` yields the
complete pieces of `x` followed by the splitting of the carry (the last
piece of `x`) prepended to `y`.  This is exactly why the read loop's
carry-buffer scheme is insensitive to read boundaries. -/
theorem splitNN_append : ∀ x y : JStr,
    splitNN (x ++ y) = (splitNN x).dropLast ++ splitNN (lastD (splitNN x) ++ y) := by
  intro x
  induction x using splitNN.induct with
  | case1 => intro y; simp [splitNN, lastD]
  | case2 c => intro y; simp [splitNN, lastD]
  | case3 c₁ c₂ r hc ih =>
    intro y
    obtain ⟨rfl, rfl⟩ := hc
    have hr := splitNN_ne_nil r
    obtain ⟨h0, t0, ht⟩ := List.exists_cons_of_ne_nil hr
    have lhs : splitNN (('\n' :: '\n' :: r) ++ y) = [] :: splitNN (r ++ y) := by
      simp [splitNN]
    rw [lhs, ih y]
    have rhs1 : splitNN ('\n' :: '\n' :: r) = [] :: splitNN r := by simp [splitNN]
    rw [rhs1, ht]
    simp [lastD]
  | case4 c₁ c₂ r hc heq ih => exact absurd heq (splitNN_ne_nil _)
  | case5 c₁ c₂ r hc h0 t0 heq ih =>
    intro y
    have hyr := ih y
    rw [heq] at hyr
    have hx : splitNN (c₁ :: c₂ :: r) = (c₁ :: h0) :: t0 := by
      simp [splitNN, hc, heq]
    rw [hx]
    cases t0 with
    | nil =>
      have hh0 : h0 = c₂ :: r := splitNN_singleton _ _ heq
      subst hh0
      simp [lastD]
    | cons t1 ts =>
      have e1 : splitNN ((c₁ :: c₂ :: r) ++ y) =
          match splitNN ((c₂ :: r) ++ y) with
          | [] => [[c₁]]
          | h :: t => (c₁ :: h) :: t := by
        simp [splitNN, hc]
      rw [e1, hyr]
      simp [List.dropLast_cons₂, lastD_cons_cons]

/-- Splitting a delimiter-free line followed by the delimiter peels off
exactly that line. -/
theorem splitNN_line : ∀ line rest : JStr, '\n' ∉ line →
    splitNN (line ++ '\n' :: '\n' :: rest) = line :: splitNN rest := by
  intro line
  induction line with
  | nil =>
    intro rest _
    simp [splitNN]
  | cons c line' ih =>
    intro rest hmem
    have hc : c ≠ '\n' := by
      intro hcc
      exact hmem (by simp [hcc])
    have hmem' : '\n' ∉ line' := by
      intro hx
      exact hmem (by simp [hx])
    cases line' with
    | nil =>
      have : splitNN (c :: '\n' :: '\n' :: rest) = [c] :: splitNN rest := by
        simp [splitNN, hc]
      simpa using this
    | cons d line'' =>
      have ihd := ih rest hmem'
      have : splitNN (c :: (d :: line'' ++ '\n' :: '\n' :: rest)) =
          match splitNN (d :: line'' ++ '\n' :: '\n' :: rest) with
          | [] => [[c]]
          | h :: t => (c :: h) :: t := by
        simp [splitNN, hc]
      rw [List.cons_append, this, ihd]

theorem nl_not_mem_jsonEscape : ∀ s : JStr, '\n' ∉ jsonEscape s := by
  intro s
  induction s with
  | nil => simp [jsonEscape]
  | cons c r ih =>
    simp only [jsonEscape, List.mem_append]
    rintro (h | h)
    · split_ifs at h with h1 h2 h3 h4 h5 <;> simp_all
      exact h3 h.symm
    · exact ih h

theorem nl_not_mem_encodePayload : ∀ f : SEvent, '\n' ∉ encodePayload f := by
  intro f
  cases f with
  | done => decide
  | reasoning s =>
    simp only [encodePayload, List.mem_append, List.mem_cons]
    rintro ((h | h) | (h | (h | h)))
    · revert h; decide
    · revert h; decide
    · revert h; decide
    · revert h; decide
    · rcases h with h | h
      · exact nl_not_mem_jsonEscape s h
      · simp_all
  | content s =>
    simp only [encodePayload, List.mem_append, List.mem_cons]
    rintro ((h | h) | (h | (h | h)))
    · revert h; decide
    · revert h; decide
    · revert h; decide
    · revert h; decide
    · rcases h with h | h
      · exact nl_not_mem_jsonEscape s h
      · simp_all
  | error s =>
    simp only [encodePayload, List.mem_append, List.mem_cons]
    rintro ((h | h) | (h | (h | h)))
    · revert h; decide
    · revert h; decide
    · revert h; decide
    · revert h; decide
    · rcases h with h | h
      · exact nl_not_mem_jsonEscape s h
      · simp_all

theorem nl_not_mem_lineFor (f : SEvent) : '\n' ∉ lineFor f := by
  simp only [lineFor, List.mem_append]
  rintro (h | h)
  · revert h; decide
  · exact nl_not_mem_encodePayload f h

/-- Splitting the full encoded stream followed by a delimiter-free trailing
fragment recovers exactly the frame lines, with the fragment as carry. -/
theorem splitNN_encodeStream : ∀ (fs : List SEvent) (frag : JStr),
    splitNN frag = [frag] →
    splitNN (encodeStream fs ++ frag) = (fs.map lineFor) ++ [frag] := by
  intro fs
  induction fs with
  | nil => intro frag h; simpa using h
  | cons f r ih =>
    intro frag h
    have : encodeStream (f :: r) ++ frag =
        lineFor f ++ '\n' :: '\n' :: (encodeStream r ++ frag) := by
      simp [encodeStream]
    rw [this, splitNN_line _ _ (nl_not_mem_lineFor f), ih frag h]
    simp


/-! ## Round trip of the frame encoding through the parser model -/

theorem leadsWith_append_self : ∀ p r : JStr, leadsWith p (p ++ r) = true := by
  intro p
  induction p with
  | nil => intro r; rfl
  | cons c p ih => intro r; simp [leadsWith, ih]

theorem stripLead_append (p r : JStr) : stripLead p (p ++ r) = some r := by
  simp [stripLead, leadsWith_append_self, List.drop_left]

theorem parseStrLit_quote (r : JStr) : parseStrLit ('"' :: r) = some ([], r) := by
  rw [parseStrLit.eq_def]
  simp

theorem parseStrLit_backslash (e : Char) (r : JStr) :
    parseStrLit ('\\' :: e :: r) =
      (parseStrLit r).map (fun pr => (unesc e :: pr.1, pr.2)) := by
  rw [parseStrLit.eq_def]
  simp

theorem parseStrLit_other (c : Char) (r : JStr) (h1 : c ≠ '"') (h2 : c ≠ '\\') :
    parseStrLit (c :: r) = (parseStrLit r).map (fun pr => (c :: pr.1, pr.2)) := by
  rw [parseStrLit.eq_def]
  simp [h1, h2]

/-- Decoding inverts encoding for string literals. -/
theorem parseStrLit_escape : ∀ s rest : JStr,
    parseStrLit (jsonEscape s ++ '"' :: rest) = some (s, rest) := by
  intro s
  induction s with
  | nil => intro rest; simp [jsonEscape, parseStrLit_quote]
  | cons c r ih =>
    intro rest
    by_cases h1 : c = '"'
    · subst h1
      simp [jsonEscape, parseStrLit_backslash, unesc, ih]
    · by_cases h2 : c = '\\'
      · subst h2
        simp [jsonEscape, parseStrLit_backslash, unesc, ih]
      · by_cases h3 : c = '\n'
        · subst h3
          simp [jsonEscape, parseStrLit_backslash, unesc, ih]
        · by_cases h4 : c = '\r'
          · subst h4
            simp [jsonEscape, parseStrLit_backslash, unesc, ih]
          · by_cases h5 : c = '\t'
            · subst h5
              simp [jsonEscape, parseStrLit_backslash, unesc, ih]
            · simp [jsonEscape, h1, h2, h3, h4, h5, parseStrLit_other, ih]

/-- The shape-restricted `JSON.parse` model inverts the frame serializer. -/
theorem parse_encode : ∀ f : SEvent, parsePayload (encodePayload f) = some f := by
  intro f
  cases f with
  | done => decide
  | reasoning s =>
    have hre : toL ("reasoning") = jsonEscape (toL ("reasoning")) := by decide
    show parsePayload (hdrP ++ toL ("reasoning") ++
      '"' :: (sepP ++ (jsonEscape s ++ '"' :: '\x7d' :: []))) = _
    simp only [parsePayload, List.append_assoc]
    rw [stripLead_append, hre]
    dsimp only
    rw [parseStrLit_escape]
    dsimp only
    rw [if_neg (by decide), stripLead_append]
    dsimp only
    rw [parseStrLit_escape]
    dsimp only
    rw [if_pos (by decide), if_pos (by decide)]
  | content s =>
    have hco : toL ("content") = jsonEscape (toL ("content")) := by decide
    show parsePayload (hdrP ++ toL ("content") ++
      '"' :: (sepP ++ (jsonEscape s ++ '"' :: '\x7d' :: []))) = _
    simp only [parsePayload, List.append_assoc]
    rw [stripLead_append, hco]
    dsimp only
    rw [parseStrLit_escape]
    dsimp only
    rw [if_neg (by decide), stripLead_append]
    dsimp only
    rw [parseStrLit_escape]
    dsimp only
    rw [if_pos (by decide), if_neg (by decide), if_pos (by decide)]
  | error s =>
    have her : toL ("error") = jsonEscape (toL ("error")) := by decide
    show parsePayload (hdrP ++ toL ("error") ++
      '"' :: (sepP ++ (jsonEscape s ++ '"' :: '\x7d' :: []))) = _
    simp only [parsePayload, List.append_assoc]
    rw [stripLead_append, her]
    dsimp only
    rw [parseStrLit_escape]
    dsimp only
    rw [if_neg (by decide), stripLead_append]
    dsimp only
    rw [parseStrLit_escape]
    dsimp only
    rw [if_pos (by decide), if_neg (by decide), if_neg (by decide), if_pos (by decide)]

/-- Evaluation of the line handler on a well-formed frame line. -/
theorem handleLine_eval (now : Nat) (st : ChatState) (f : SEvent) :
    handleLine now st (lineFor f) =
      match f with
      | SEvent.reasoning s => if s = [] then st else appendReasoning st s
      | SEvent.content s =>
        if s = [] then st else appendContent st (stripThinkingTags s)
      | SEvent.done => finalizeStream st now
      | SEvent.error s =>
        setStreaming (addAiMessage st (toL ("Error: ") ++ s) none now) false := by
  have hdrop : (lineFor f).drop 6 = encodePayload f := by
    show (dataLit ++ encodePayload f).drop 6 = encodePayload f
    have h6 : dataLit.length = 6 := by decide
    rw [← h6]
    exact List.drop_left dataLit (encodePayload f)
  have hlead : leadsWith dataLit (lineFor f) = true := by
    show leadsWith dataLit (dataLit ++ encodePayload f) = true
    exact leadsWith_append_self dataLit (encodePayload f)
  simp only [handleLine, hlead, if_pos, hdrop, parse_encode f]
  cases f <;> rfl

/-! ## The read loop is insensitive to read boundaries -/

theorem processLines_append (now : Nat) : ∀ (A B : List JStr) (st : ChatState),
    processLines now st (A ++ B) =
      ((processLines now (processLines now st A).1 B).1,
       (processLines now st A).2 ++ (processLines now (processLines now st A).1 B).2) := by
  intro A
  induction A with
  | nil => intro B st; simp [processLines]
  | cons l ls ih => intro B st; simp [processLines, ih]

/-- Fusing two adjacent physical reads into one does not change the loop's
result (state, carry buffer, or trace). -/
theorem runReads_merge (now : Nat) (st : ChatState) (buf a b : JStr)
    (rest : List JStr) :
    runReads now st buf (a :: b :: rest) = runReads now st buf ((a ++ b) :: rest) := by
  have hsp := splitNN_append (buf ++ a) b
  have hne := splitNN_ne_nil (lastD (splitNN (buf ++ a)) ++ b)
  simp only [runReads]
  rw [show buf ++ (a ++ b) = (buf ++ a) ++ b from (List.append_assoc buf a b).symm]
  rw [hsp]
  rw [List.dropLast_append_of_ne_nil _ hne]
  rw [lastD_append_of_ne_nil _ _ hne]
  rw [processLines_append]
  simp [List.append_assoc]

/-- The loop's outcome depends only on the concatenation of the reads. -/
theorem runReads_join_cons (now : Nat) : ∀ (rest : List JStr) (a : JStr)
    (st : ChatState) (buf : JStr),
    runReads now st buf (a :: rest) = runReads now st buf [joinL (a :: rest)] := by
  intro rest
  induction rest with
  | nil =>
    intro a st buf
    simp [joinL]
  | cons b rest2 ih =>
    intro a st buf
    rw [runReads_merge]
    rw [ih (a ++ b) st buf]
    have hj : joinL ((a ++ b) :: rest2) = joinL (a :: b :: rest2) := by
      simp [joinL]
    rw [hj]

/-- Evaluation of the loop on the whole encoded stream delivered as one
read: the frame lines are processed and the trailing fragment is left in
the carry buffer, never processed. -/
theorem runReads_single_stream (now : Nat) (st : ChatState) (fs : List SEvent)
    (frag : JStr) (hfrag : splitNN frag = [frag]) :
    runReads now st [] [encodeStream fs ++ frag] =
      ⟨(processLines now st (fs.map lineFor)).1, frag,
       (processLines now st (fs.map lineFor)).2⟩ := by
  simp only [runReads]
  rw [List.nil_append, splitNN_encodeStream fs frag hfrag]
  rw [List.dropLast_concat, lastD_concat]
  simp [runReads]

theorem encodeStream_eq_nil : ∀ fs : List SEvent, encodeStream fs = [] → fs = [] := by
  intro fs h
  cases fs with
  | nil => rfl
  | cons f r =>
    exfalso
    have : lineFor f ++ '\n' :: '\n' :: encodeStream r = [] := h
    rcases List.append_eq_nil.mp this with ⟨h1, h2⟩
    simp at h2

/-- Buffer accumulation over a sequence of chunk frames delivered as
complete lines: reasoning chunks and (tag-stripped) content chunks are
appended in arrival order; nothing else in the two buffers changes. -/
theorem processLines_chunks (now : Nat) : ∀ (fs : List SEvent) (st : ChatState),
    (∀ f ∈ fs, isChunk f = true) →
    (processLines now st (fs.map lineFor)).1.streamingReasoning =
        st.streamingReasoning ++ reasoningText fs ∧
    (processLines now st (fs.map lineFor)).1.streamingContent =
        st.streamingContent ++ contentTextStripped fs := by
  intro fs
  induction fs with
  | nil => intro st _; simp [processLines, reasoningText, contentTextStripped]
  | cons f fs ih =>
    intro st h
    have hf := h f (by simp)
    have hrest : ∀ g ∈ fs, isChunk g = true := fun g hg => h g (by simp [hg])
    cases f with
    | done => simp [isChunk] at hf
    | error s => simp [isChunk] at hf
    | reasoning s =>
      simp only [List.map_cons, processLines, handleLine_eval]
      by_cases hs : s = []
      · subst hs
        have e : (if ([] : JStr) = [] then st else appendReasoning st []) = st := by
          simp
        rw [e]
        obtain ⟨ihR, ihC⟩ := ih st hrest
        constructor
        · rw [ihR]
          simp [reasoningText]
        · rw [ihC]
          simp [contentTextStripped]
      · simp only [if_neg hs]
        obtain ⟨ihR, ihC⟩ := ih (appendReasoning st s) hrest
        constructor
        · rw [ihR]
          simp [appendReasoning, reasoningText]
        · rw [ihC]
          simp [appendReasoning, contentTextStripped]
    | content s =>
      simp only [List.map_cons, processLines, handleLine_eval]
      by_cases hs : s = []
      · subst hs
        have e : (if ([] : JStr) = [] then st
            else appendContent st (stripThinkingTags [])) = st := by simp
        rw [e]
        obtain ⟨ihR, ihC⟩ := ih st hrest
        constructor
        · rw [ihR]
          simp [reasoningText]
        · rw [ihC]
          simp [contentTextStripped, stripThinkingTags, stripTagsGo]
      · simp only [if_neg hs]
        obtain ⟨ihR, ihC⟩ := ih (appendContent st (stripThinkingTags s)) hrest
        constructor
        · rw [ihR]
          simp [appendContent, reasoningText]
        · rw [ihC]
          simp [appendContent, contentTextStripped]

/-- Claim C1, amended.  For every finite sequence of reasoning and content
frames and every way of splitting the encoded frame stream across physical
reads (including a trailing incomplete frame), after the read loop ends the
final `streamingReasoning` equals the concatenation of all reasoning chunks
in arrival order, and the final `streamingContent` equals the concatenation
of all content chunks in arrival order with each chunk's inline thinking-tag
markers stripped (the read loop passes every content chunk through
`stripThinkingTags` before buffering, so the buffer does not in general
equal the verbatim concatenation claimed); a frame split across reads is
buffered and processed only once its blank-line delimiter arrives, and the
trailing incomplete frame is discarded without error. -/
theorem claim_c1 (st : ChatState) (now : Nat) (fs : List SEvent)
    (reads : List JStr) (frag : JStr)
    (hR : st.streamingReasoning = []) (hC : st.streamingContent = [])
    (hfs : ∀ f ∈ fs, isChunk f = true)
    (hjoin : joinL reads = encodeStream fs ++ frag)
    (hfrag : splitNN frag = [frag]) :
    (runReads now st [] reads).st.streamingReasoning = reasoningText fs ∧
    (runReads now st [] reads).st.streamingContent = contentTextStripped fs := by
  cases reads with
  | nil =>
    have h0 : encodeStream fs ++ frag = [] := by
      rw [← hjoin]; rfl
    rcases List.append_eq_nil.mp h0 with ⟨h1, _⟩
    have hfs0 : fs = [] := encodeStream_eq_nil fs h1
    subst hfs0
    constructor
    · simpa [runReads, reasoningText] using hR
    · simpa [runReads, contentTextStripped] using hC
  | cons a rest =>
    rw [runReads_join_cons now rest a st []]
    rw [hjoin]
    rw [runReads_single_stream now st fs frag hfrag]
    obtain ⟨h1, h2⟩ := processLines_chunks now fs st hfs
    constructor
    · rw [h1, hR]; rfl
    · rw [h2, hC]; rfl

/-- Witness for claim C1: two frames split across two physical reads at an
arbitrary byte boundary, with a trailing incomplete frame left over. -/
theorem claim_c1_witness :
    (initialState.streamingReasoning = [] ∧
     initialState.streamingContent = [] ∧
     (∀ f ∈ [SEvent.reasoning (toL ("Th")), SEvent.content (toL ("Ans"))],
        isChunk f = true) ∧
     joinL [(encodeStream [SEvent.reasoning (toL ("Th")),
               SEvent.content (toL ("Ans"))] ++ toL ("data: x")).take 20,
            (encodeStream [SEvent.reasoning (toL ("Th")),
               SEvent.content (toL ("Ans"))] ++ toL ("data: x")).drop 20] =
       encodeStream [SEvent.reasoning (toL ("Th")),
         SEvent.content (toL ("Ans"))] ++ toL ("data: x") ∧
     splitNN (toL ("data: x")) = [toL ("data: x")]) ∧
    ((runReads 0 initialState []
        [(encodeStream [SEvent.reasoning (toL ("Th")),
            SEvent.content (toL ("Ans"))] ++ toL ("data: x")).take 20,
         (encodeStream [SEvent.reasoning (toL ("Th")),
            SEvent.content (toL ("Ans"))] ++ toL ("data: x")).drop 20]).st.streamingReasoning =
       reasoningText [SEvent.reasoning (toL ("Th")), SEvent.content (toL ("Ans"))] ∧
     (runReads 0 initialState []
        [(encodeStream [SEvent.reasoning (toL ("Th")),
            SEvent.content (toL ("Ans"))] ++ toL ("data: x")).take 20,
         (encodeStream [SEvent.reasoning (toL ("Th")),
            SEvent.content (toL ("Ans"))] ++ toL ("data: x")).drop 20]).st.streamingContent =
       contentTextStripped [SEvent.reasoning (toL ("Th")),
         SEvent.content (toL ("Ans"))]) :=
  ⟨⟨by decide, by decide, by decide, by decide, by decide⟩,
   claim_c1 initialState 0
     [SEvent.reasoning (toL ("Th")), SEvent.content (toL ("Ans"))]
     [(encodeStream [SEvent.reasoning (toL ("Th")),
         SEvent.content (toL ("Ans"))] ++ toL ("data: x")).take 20,
      (encodeStream [SEvent.reasoning (toL ("Th")),
         SEvent.content (toL ("Ans"))] ++ toL ("data: x")).drop 20]
     (toL ("data: x"))
     (by decide) (by decide) (by decide) (by decide) (by decide)⟩

/-- Counterexample to claim C1 as stated: a single content frame whose chunk
carries inline thinking markup.  The read loop strips the markup before
buffering (`appendContent(stripThinkingTags(event.content))`), so the final
content buffer is not the verbatim concatenation of the content chunks. -/
theorem claim_c1_cex :
    (runReads 0 initialState []
      [encodeStream [SEvent.content (toL ("<thinking>hi"))]]).st.streamingContent ≠
    contentText [SEvent.content (toL ("<thinking>hi"))] := by decide

/-! ## Finalize: idempotence and the pending-tool-call guard -/

theorem finalize_clean (st : ChatState) (now : Nat)
    (h1 : trimL st.streamingContent = []) (h2 : trimL st.streamingReasoning = [])
    (h3 : st.streamingToolCalls = []) : finalizeStream st now = st := by
  have hng : ¬(trimL st.streamingContent ≠ [] ∨ trimL st.streamingReasoning ≠ [] ∨
      st.streamingToolCalls ≠ []) := by simp [h1, h2, h3]
  simp only [finalizeStream]
  rw [if_neg hng]

theorem finalize_proj_dirty (st : ChatState) (now : Nat)
    (hg : trimL st.streamingContent ≠ [] ∨ trimL st.streamingReasoning ≠ [] ∨
      st.streamingToolCalls ≠ []) :
    (finalizeStream st now).streamingContent = [] ∧
    (finalizeStream st now).streamingReasoning = [] ∧
    (finalizeStream st now).streamingToolCalls = [] ∧
    ∃ m, (finalizeStream st now).messages = st.messages ++ [m] := by
  simp only [finalizeStream]
  rw [if_pos hg]
  exact ⟨rfl, rfl, rfl, ⟨_, rfl⟩⟩

theorem finalize_idem (st : ChatState) (now now2 : Nat) :
    finalizeStream (finalizeStream st now) now2 = finalizeStream st now := by
  by_cases hg : trimL st.streamingContent ≠ [] ∨ trimL st.streamingReasoning ≠ [] ∨
      st.streamingToolCalls ≠ []
  · obtain ⟨h1, h2, h3, _⟩ := finalize_proj_dirty st now hg
    exact finalize_clean _ _ (by rw [h1]; rfl) (by rw [h2]; rfl) h3
  · have h : finalizeStream st now = st := by
      simp only [finalizeStream]
      rw [if_neg hg]
    rw [h]
    simp only [finalizeStream]
    rw [if_neg hg]

theorem finalize_messages_dirty (st : ChatState) (now : Nat)
    (hg : trimL st.streamingContent ≠ [] ∨ trimL st.streamingReasoning ≠ [] ∨
      st.streamingToolCalls ≠ []) :
    ∃ m, (finalizeStream st now).messages = st.messages ++ [m] :=
  (finalize_proj_dirty st now hg).2.2.2

/-- Claim C3, amended.  A `finalizeStream` call is a no-op when the trimmed
content buffer, the trimmed reasoning buffer AND the tool-call buffer are
all empty (the claim's statement omitted the tool-call condition: a pending
tool call alone makes finalize append a `(No content)` message); a second
call immediately after any call is always a no-op, so two calls in a row
append exactly the messages of one call — exactly one message when
something was pending, none otherwise. -/
theorem claim_c3 (st : ChatState) (now now2 : Nat) :
    ((trimL st.streamingContent = [] ∧ trimL st.streamingReasoning = [] ∧
        st.streamingToolCalls = []) → finalizeStream st now = st) ∧
    finalizeStream (finalizeStream st now) now2 = finalizeStream st now ∧
    (¬(trimL st.streamingContent = [] ∧ trimL st.streamingReasoning = [] ∧
        st.streamingToolCalls = []) →
      (finalizeStream (finalizeStream st now) now2).messages.length =
        st.messages.length + 1) := by
  refine ⟨fun h => finalize_clean st now h.1 h.2.1 h.2.2, finalize_idem st now now2,
    fun hg => ?_⟩
  have hg' : trimL st.streamingContent ≠ [] ∨ trimL st.streamingReasoning ≠ [] ∨
      st.streamingToolCalls ≠ [] := by tauto
  rw [finalize_idem]
  obtain ⟨m, hm⟩ := finalize_messages_dirty st now hg'
  rw [hm]
  simp

/-- Witness for claim C3 at a state with one pending content buffer. -/
theorem claim_c3_witness :
    (¬(trimL (toL ("hello")) = [] ∧ trimL ([] : JStr) = [] ∧ ([] : List ToolCall) = []) ∧
     (finalizeStream (finalizeStream
        { initialState with streamingContent := toL ("hello") } 0) 0).messages.length =
       ({ initialState with streamingContent := toL ("hello") } : ChatState).messages.length + 1) :=
  ⟨by decide,
   (claim_c3 { initialState with streamingContent := toL ("hello") } 0 0).2.2 (by decide)⟩

/-- Counterexample to claim C3 as stated: with both text buffers empty but a
tool call pending, `finalizeStream` does append a message (the guard also
tests `streamingToolCalls.length > 0`). -/
theorem claim_c3_cex :
    (finalizeStream
      { initialState with
        streamingToolCalls := [⟨toL ("1"), toL ("search"), TCStatus.calling, none⟩] }
      0).messages ≠
    ({ initialState with
        streamingToolCalls := [⟨toL ("1"), toL ("search"), TCStatus.calling, none⟩] } :
      ChatState).messages := by decide

/-! ## The tool-call updater -/

theorem map_id_of_mem {α : Type} (l : List α) (f : α → α)
    (h : ∀ a ∈ l, f a = a) : l.map f = l := by
  induction l with
  | nil => rfl
  | cons a t ih =>
    simp only [List.map_cons]
    rw [h a (by simp), ih (fun b hb => h b (by simp [hb]))]

/-- Claim C10, amended.  `updateToolCall` never inserts: when no buffered
tool call bears the given name the whole store state is unchanged; when the
name matches, every entry with that name gets the new status, and gets the
new result exactly when a result argument is provided AND non-empty (the
spread `...(result ? { result } : {})` tests JavaScript truthiness, so a
provided empty-string result is dropped and the stored result kept, contrary
to the claim's "when provided"); entries with other names and every other
store field are untouched. -/
theorem claim_c10 (st : ChatState) (name : JStr) (status : TCStatus)
    (result : Option JStr) :
    ((∀ tc ∈ st.streamingToolCalls, tc.name ≠ name) →
      updateToolCall st name status result = st) ∧
    (updateToolCall st name status result).streamingToolCalls.length =
      st.streamingToolCalls.length ∧
    (∀ i : Nat, (updateToolCall st name status result).streamingToolCalls[i]? =
      (st.streamingToolCalls[i]?).map (fun tc =>
        if tc.name = name then
          { tc with
            status := status
            result := match result with
              | some r => if r = [] then tc.result else some r
              | none => tc.result }
        else tc)) ∧
    (updateToolCall st name status result).messages = st.messages ∧
    (updateToolCall st name status result).conversations = st.conversations ∧
    (updateToolCall st name status result).currentConversationId =
      st.currentConversationId ∧
    (updateToolCall st name status result).isLoading = st.isLoading ∧
    (updateToolCall st name status result).isStreaming = st.isStreaming ∧
    (updateToolCall st name status result).streamingContent = st.streamingContent ∧
    (updateToolCall st name status result).streamingReasoning =
      st.streamingReasoning := by
  refine ⟨?_, ?_, ?_, rfl, rfl, rfl, rfl, rfl, rfl, rfl⟩
  · intro h
    have hm := map_id_of_mem st.streamingToolCalls
      (fun tc =>
        if tc.name = name then
          { tc with
            status := status
            result := match result with
              | some r => if r = [] then tc.result else some r
              | none => tc.result }
        else tc)
      (fun tc htc => if_neg (h tc htc))
    simp only [updateToolCall]
    rw [hm]
  · simp [updateToolCall]
  · intro i
    simp [updateToolCall]

/-- Witness for claim C10 at a two-entry buffer, one matching name. -/
theorem claim_c10_witness :
    ((∀ tc ∈ ({ initialState with
          streamingToolCalls := [⟨toL ("1"), toL ("web"), TCStatus.calling, none⟩] } :
        ChatState).streamingToolCalls, tc.name ≠ toL ("search")) ∧
     updateToolCall
        { initialState with
          streamingToolCalls := [⟨toL ("1"), toL ("web"), TCStatus.calling, none⟩] }
        (toL ("search")) TCStatus.completed (some (toL ("ok"))) =
       { initialState with
          streamingToolCalls := [⟨toL ("1"), toL ("web"), TCStatus.calling, none⟩] }) :=
  ⟨by decide,
   (claim_c10
      { initialState with
        streamingToolCalls := [⟨toL ("1"), toL ("web"), TCStatus.calling, none⟩] }
      (toL ("search")) TCStatus.completed (some (toL ("ok")))).1 (by decide)⟩

/-- Counterexample to claim C10 as stated: a provided but empty result is
not written (JavaScript truthiness), so the matching entry keeps its old
result instead of receiving the provided one. -/
theorem claim_c10_cex :
    (updateToolCall
      { initialState with
        streamingToolCalls :=
          [⟨toL ("1"), toL ("web"), TCStatus.calling, some (toL ("old"))⟩] }
      (toL ("web")) TCStatus.completed (some [])).streamingToolCalls ≠
    [⟨toL ("1"), toL ("web"), TCStatus.completed, some []⟩] := by decide

/-! ## Trim and inline-markup lemmas -/

theorem trimL_nil : trimL [] = [] := rfl

theorem head?_eq_get_zero (l : JStr) (h : 0 < l.length) :
    l.head? = some (l.get ⟨0, h⟩) := by
  cases l with
  | nil => simp at h
  | cons a t => rfl

theorem trimL_id_of_noEdge (s : JStr) (h : noEdgeWsB s = true) : trimL s = s := by
  cases s with
  | nil => rfl
  | cons a t =>
    simp only [noEdgeWsB, Bool.and_eq_true] at h
    obtain ⟨hh, hl⟩ := h
    have h1 : (a :: t).dropWhile isJsWs = a :: t := by
      rw [List.dropWhile_eq_self_iff]
      intro hlen
      have ha : (a :: t).get ⟨0, hlen⟩ = a := rfl
      rw [ha]
      simpa using hh
    have hrev : (a :: t).reverse.dropWhile isJsWs = (a :: t).reverse := by
      rw [List.dropWhile_eq_self_iff]
      intro hlen
      have hhd := head?_eq_get_zero (a :: t).reverse hlen
      rw [List.head?_reverse] at hhd
      rw [hhd] at hl
      simpa using hl
    show (((a :: t).dropWhile isJsWs).reverse.dropWhile isJsWs).reverse = a :: t
    rw [h1, hrev, List.reverse_reverse]

theorem splitAtCI_length (pat : JStr) :
    ∀ s a b, splitAtCI pat s = some (a, b) → b.length ≤ s.length := by
  intro s
  induction s with
  | nil =>
    intro a b h
    simp only [splitAtCI] at h
    split at h
    · simp at h; simp [h.2]
    · exact absurd h (by simp)
  | cons c r ih =>
    intro a b h
    simp only [splitAtCI] at h
    split at h
    · simp at h
      obtain ⟨_, h2⟩ := h
      subst h2
      simp [List.length_drop]
    · rw [Option.map_eq_some'] at h
      obtain ⟨pr, hpr, hf⟩ := h
      have hb : b = pr.2 := by
        have := congrArg Prod.snd hf
        simpa using this.symm
      subst hb
      have := ih pr.1 pr.2 hpr
      simp
      omega

theorem leadsWithCI_append_lower : ∀ (pat r : JStr),
    pat.map Char.toLower = pat → leadsWithCI pat (pat ++ r) = true := by
  intro pat
  induction pat with
  | nil => intro r _; rfl
  | cons c ps ih =>
    intro r h
    simp only [List.map_cons, List.cons.injEq] at h
    obtain ⟨h1, h2⟩ := h
    simp [leadsWithCI, h1, ih r h2]

theorem splitAtCI_self_append (pat r : JStr) (hne : pat ≠ [])
    (hlow : pat.map Char.toLower = pat) :
    splitAtCI pat (pat ++ r) = some ([], r) := by
  cases pat with
  | nil => exact absurd rfl hne
  | cons p ps =>
    have hl := leadsWithCI_append_lower (p :: ps) r hlow
    have he : (p :: ps) ++ r = p :: (ps ++ r) := rfl
    rw [he] at hl ⊢
    simp only [splitAtCI]
    rw [if_pos hl]
    rw [← he, List.drop_left]

theorem splitAtCI_none_cons (pat : JStr) (c : Char) (r : JStr)
    (h : splitAtCI pat (c :: r) = none) :
    leadsWithCI pat (c :: r) = false ∧ splitAtCI pat r = none := by
  simp only [splitAtCI] at h
  by_cases hc : leadsWithCI pat (c :: r) = true
  · rw [if_pos hc] at h
    exact absurd h (by simp)
  · refine ⟨by simpa using hc, ?_⟩
    rw [if_neg hc] at h
    exact Option.map_eq_none'.mp h

theorem stripSpansGo_fuel : ∀ (f g : Nat) (s : JStr), s.length ≤ f →
    s.length ≤ g → stripSpansGo f s = stripSpansGo g s := by
  intro f
  induction f with
  | zero =>
    intro g s hf _
    have hs : s = [] := List.eq_nil_of_length_eq_zero (Nat.le_zero.mp hf)
    subst hs
    cases g <;> rfl
  | succ f ih =>
    intro g s hf hg
    cases s with
    | nil => cases g <;> rfl
    | cons c r =>
      cases g with
      | zero => simp at hg
      | succ g2 =>
        simp only [stripSpansGo]
        by_cases hop : leadsWithCI opnTag (c :: r) = true
        · rw [if_pos hop, if_pos hop]
          cases hm : splitAtCI clsTag ((c :: r).drop 10) with
          | none => rfl
          | some pr =>
            obtain ⟨i, post⟩ := pr
            have hlen := splitAtCI_length clsTag _ _ _ hm
            simp only [List.length_drop, List.length_cons] at hlen
            simp only [List.length_cons] at hf hg
            exact ih g2 post (by omega) (by omega)
        · rw [if_neg hop, if_neg hop]
          simp only [List.length_cons] at hf hg
          rw [ih g2 r (by omega) (by omega)]

theorem stripSpansGo_no_open : ∀ (f : Nat) (Y : JStr), Y.length ≤ f →
    splitAtCI opnTag Y = none → stripSpansGo f Y = Y := by
  intro f
  induction f with
  | zero =>
    intro Y hf _
    have hs : Y = [] := List.eq_nil_of_length_eq_zero (Nat.le_zero.mp hf)
    subst hs
    rfl
  | succ f ih =>
    intro Y hf hn
    cases Y with
    | nil => rfl
    | cons c r =>
      obtain ⟨hlead, hrest⟩ := splitAtCI_none_cons opnTag c r hn
      simp only [stripSpansGo]
      rw [if_neg (by simp [hlead])]
      simp only [List.length_cons] at hf
      rw [ih r (by omega) hrest]

theorem stripSpansAll_no_open (Y : JStr) (h : splitAtCI opnTag Y = none) :
    stripSpansAll Y = Y :=
  stripSpansGo_no_open Y.length Y le_rfl h

theorem stripSpansAll_span (X Y : JStr)
    (hclose : splitAtCI clsTag (X ++ (clsTag ++ Y)) = some (X, Y)) :
    stripSpansAll (opnTag ++ (X ++ (clsTag ++ Y))) = stripSpansAll Y := by
  have hfull : opnTag ++ (X ++ (clsTag ++ Y)) =
      '<' :: (toL ("thinking>") ++ (X ++ (clsTag ++ Y))) := rfl
  have hop : leadsWithCI opnTag
      ('<' :: (toL ("thinking>") ++ (X ++ (clsTag ++ Y)))) = true := by
    rw [← hfull]
    exact leadsWithCI_append_lower opnTag _ (by decide)
  have hdrop : ('<' :: (toL ("thinking>") ++ (X ++ (clsTag ++ Y)))).drop 10 =
      X ++ (clsTag ++ Y) := by
    rw [← hfull]
    rw [show (10 : Nat) = opnTag.length from by decide]
    exact List.drop_left _ _
  rw [stripSpansAll, hfull]
  simp only [List.length_cons]
  simp only [stripSpansGo]
  rw [if_pos hop, hdrop, hclose]
  apply stripSpansGo_fuel
  · simp [List.length_append]
    omega
  · exact le_rfl

theorem thinkFirst_span (X Y : JStr)
    (hclose : splitAtCI clsTag (X ++ (clsTag ++ Y)) = some (X, Y)) :
    thinkFirst (opnTag ++ (X ++ (clsTag ++ Y))) = some ([], X, Y) := by
  unfold thinkFirst
  rw [splitAtCI_self_append opnTag _ (by decide) (by decide)]
  dsimp only
  rw [hclose]

/-- Claim C4.  For a turn whose streamed content buffer holds
`<thinking>X</thinking>Y` with no separate reasoning frames (and no buffered
tool calls), finalize produces an assistant message with reasoning `X` and
content `Y`: the first markup span is extracted case-insensitively and
non-greedily and stripped from the content.  The side conditions say the
metavariables stand for ordinary text: `X` and `Y` are non-empty and neither
begins nor ends with whitespace, the first closing tag after the opening one
is the explicit delimiter (no closing tag hides inside `X`), and `Y`
contains no further opening tag. -/
theorem claim_c4 (st : ChatState) (now : Nat) (X Y : JStr)
    (hRe : st.streamingReasoning = [])
    (hTC : st.streamingToolCalls = [])
    (hCon : st.streamingContent = opnTag ++ (X ++ (clsTag ++ Y)))
    (hXne : X ≠ []) (hYne : Y ≠ [])
    (hXw : noEdgeWsB X = true) (hYw : noEdgeWsB Y = true)
    (hclose : splitAtCI clsTag (X ++ (clsTag ++ Y)) = some (X, Y))
    (hopen : splitAtCI opnTag Y = none) :
    (finalizeStream st now).messages =
      st.messages ++ [⟨Role.ai, Y, some X, [], none⟩] := by
  obtain ⟨y, hy⟩ : ∃ y, Y.getLast? = some y := by
    cases hYl : Y.getLast? with
    | none =>
      rw [List.getLast?_eq_none_iff] at hYl
      exact absurd hYl hYne
    | some y => exact ⟨y, rfl⟩
  have hyw : (!isJsWs y) = true := by
    simp only [noEdgeWsB, Bool.and_eq_true] at hYw
    have h2 := hYw.2
    rw [hy] at h2
    exact h2
  have hconEdge : noEdgeWsB (opnTag ++ (X ++ (clsTag ++ Y))) = true := by
    simp only [noEdgeWsB, Bool.and_eq_true]
    constructor
    · rfl
    · have hgl : (opnTag ++ (X ++ (clsTag ++ Y))).getLast? = some y := by
        simp [List.getLast?_append, hy]
      rw [hgl]
      exact hyw
  have htrim : trimL (opnTag ++ (X ++ (clsTag ++ Y))) =
      opnTag ++ (X ++ (clsTag ++ Y)) := trimL_id_of_noEdge _ hconEdge
  have htrX : trimL X = X := trimL_id_of_noEdge _ hXw
  have htrY : trimL Y = Y := trimL_id_of_noEdge _ hYw
  have hne2 : opnTag ++ (X ++ (clsTag ++ Y)) ≠ [] := by
    simp [opnTag, toL]
  have hg : trimL st.streamingContent ≠ [] ∨ trimL st.streamingReasoning ≠ [] ∨
      st.streamingToolCalls ≠ [] := by
    left
    rw [hCon, htrim]
    exact hne2
  simp only [finalizeStream]
  rw [if_pos hg]
  dsimp only
  rw [hCon, hRe, hTC, trimL_nil, htrim]
  rw [if_pos (show ([] : JStr) = [] ∧ opnTag ++ (X ++ (clsTag ++ Y)) ≠ [] from
    ⟨rfl, hne2⟩)]
  rw [thinkFirst_span X Y hclose]
  dsimp only
  rw [htrX, stripSpansAll_span X Y hclose, stripSpansAll_no_open Y hopen, htrY]
  rw [if_neg hYne, if_neg hXne, if_neg (by simp : ¬(([] : List ToolCall) ≠ []))]

/-- Witness for claim C4 at content `<thinking>Deep</thinking>Answer`. -/
theorem claim_c4_witness :
    (({ initialState with
        streamingContent := opnTag ++ (toL ("Deep") ++ (clsTag ++ toL ("Answer"))) } :
       ChatState).streamingReasoning = [] ∧
     splitAtCI clsTag (toL ("Deep") ++ (clsTag ++ toL ("Answer"))) =
       some (toL ("Deep"), toL ("Answer")) ∧
     splitAtCI opnTag (toL ("Answer")) = none) ∧
    (finalizeStream
       { initialState with
         streamingContent := opnTag ++ (toL ("Deep") ++ (clsTag ++ toL ("Answer"))) }
       0).messages =
      ({ initialState with
         streamingContent := opnTag ++ (toL ("Deep") ++ (clsTag ++ toL ("Answer"))) } :
        ChatState).messages ++
        [⟨Role.ai, toL ("Answer"), some (toL ("Deep")), [], none⟩] :=
  ⟨⟨by decide, by decide, by decide⟩,
   claim_c4
     { initialState with
       streamingContent := opnTag ++ (toL ("Deep") ++ (clsTag ++ toL ("Answer"))) }
     0 (toL ("Deep")) (toL ("Answer"))
     (by decide) (by decide) (by decide) (by decide) (by decide)
     (by decide) (by decide) (by decide) (by decide)⟩

/-! ## Flag bookkeeping across the transport path -/

theorem finalize_isLoading (st : ChatState) (now : Nat) :
    (finalizeStream st now).isLoading = st.isLoading := by
  by_cases hg : trimL st.streamingContent ≠ [] ∨ trimL st.streamingReasoning ≠ [] ∨
      st.streamingToolCalls ≠ []
  · simp only [finalizeStream]
    rw [if_pos hg]
  · simp only [finalizeStream]
    rw [if_neg hg]

theorem handleLine_loading (now : Nat) (st : ChatState) (line : JStr) :
    (handleLine now st line).isLoading = st.isLoading := by
  simp only [handleLine]
  by_cases hl : leadsWith dataLit line = true
  · rw [if_pos hl]
    cases parsePayload (line.drop 6) with
    | none => rfl
    | some e =>
      cases e with
      | reasoning s =>
        dsimp only
        by_cases hs : s = []
        · rw [if_pos hs]
        · rw [if_neg hs]; rfl
      | content s =>
        dsimp only
        by_cases hs : s = []
        · rw [if_pos hs]
        · rw [if_neg hs]; rfl
      | done =>
        dsimp only
        exact finalize_isLoading st now
      | error s => rfl
  · rw [if_neg hl]

theorem processLines_loading (now : Nat) : ∀ (lines : List JStr) (st : ChatState),
    st.isLoading = false →
    (processLines now st lines).1.isLoading = false ∧
    ∀ s ∈ (processLines now st lines).2, s.isLoading = false := by
  intro lines
  induction lines with
  | nil => intro st h; exact ⟨h, by simp [processLines]⟩
  | cons l ls ih =>
    intro st h
    have h1 : (handleLine now st l).isLoading = false := by
      rw [handleLine_loading]; exact h
    obtain ⟨ha, hb⟩ := ih (handleLine now st l) h1
    refine ⟨by simpa [processLines] using ha, ?_⟩
    intro s hs
    simp only [processLines, List.mem_cons] at hs
    rcases hs with rfl | hs
    · exact h1
    · exact hb s hs

theorem runReads_loading (now : Nat) : ∀ (reads : List JStr) (st : ChatState)
    (buf : JStr), st.isLoading = false →
    (runReads now st buf reads).st.isLoading = false ∧
    ∀ s ∈ (runReads now st buf reads).tr, s.isLoading = false := by
  intro reads
  induction reads with
  | nil => intro st buf h; exact ⟨h, by simp [runReads]⟩
  | cons chunk rest ih =>
    intro st buf h
    obtain ⟨p1, p2⟩ := processLines_loading now (splitNN (buf ++ chunk)).dropLast st h
    obtain ⟨r1, r2⟩ := ih (processLines now st (splitNN (buf ++ chunk)).dropLast).1
      (lastD (splitNN (buf ++ chunk))) p1
    refine ⟨by simpa [runReads] using r1, ?_⟩
    intro s hs
    simp only [runReads, List.mem_append] at hs
    rcases hs with hs | hs
    · exact p2 s hs
    · exact r2 s hs

theorem finalize_streaming_clean (st : ChatState) (now : Nat)
    (h : (finalizeStream st now).isStreaming = true) :
    trimL (finalizeStream st now).streamingContent = [] ∧
    trimL (finalizeStream st now).streamingReasoning = [] ∧
    (finalizeStream st now).streamingToolCalls = [] := by
  by_cases hg : trimL st.streamingContent ≠ [] ∨ trimL st.streamingReasoning ≠ [] ∨
      st.streamingToolCalls ≠ []
  · exfalso
    have : (finalizeStream st now).isStreaming = false := by
      simp only [finalizeStream]
      rw [if_pos hg]
    rw [this] at h
    exact Bool.false_ne_true h
  · have he : finalizeStream st now = st := by
      simp only [finalizeStream]
      rw [if_neg hg]
    push_neg at hg
    rw [he]
    exact hg

/-- Claim C5.  When the streaming endpoint answers with a non-success
status or a missing body, exactly one fallback POST to the non-streaming
endpoint is made, carrying exactly the payload of the streaming attempt
(same prompt, same document context, same content parts); if the fallback
itself fails (non-success status or unparsable body), the only messages
appended for the turn are the user message and one synthetic assistant
message reporting the connection failure. -/
theorem claim_c5 (st : ChatState) (input : JStr) (pending : List ChatAttachment)
    (docCtx : JStr) (now hh mm : Nat) (streamOk fbOk : Bool)
    (streamBody : Option (List JStr)) (fbJson : Option FallbackJson)
    (hin : trimL input ≠ [])
    (hfail : streamOk = false ∨ streamBody = none) :
    (runSubmit st input pending docCtx now hh mm
        ⟨streamOk, streamBody, fbOk, fbJson⟩).requests =
      [(ReqKind.streamReq, payloadOf st input pending docCtx now hh mm),
       (ReqKind.chatReq, payloadOf st input pending docCtx now hh mm)] ∧
    (payloadOf st input pending docCtx now hh mm).prompt = input ∧
    ((fbOk = false ∨ fbJson = none) →
      (runSubmit st input pending docCtx now hh mm
          ⟨streamOk, streamBody, fbOk, fbJson⟩).state.messages =
        st.messages ++ [⟨Role.user, input, none, pending, none⟩,
                        ⟨Role.ai, sorryText, none, [], none⟩]) := by
  have hmain : ∀ fo fj,
      (runSubmit st input pending docCtx now hh mm
        ⟨streamOk, streamBody, fo, fj⟩).requests =
      [(ReqKind.streamReq, payloadOf st input pending docCtx now hh mm),
       (ReqKind.chatReq, payloadOf st input pending docCtx now hh mm)] := by
    intro fo fj
    rcases hfail with rfl | rfl
    · cases streamBody <;> cases fo <;> cases fj <;>
        simp [runSubmit, hin]
    · cases streamOk <;> cases fo <;> cases fj <;>
        simp [runSubmit, hin]
  refine ⟨hmain fbOk fbJson, rfl, ?_⟩
  intro hfb
  rcases hfail with rfl | rfl
  · rcases hfb with rfl | rfl
    · cases streamBody <;> cases fbJson <;>
        simp [runSubmit, hin, addUserMessage, addAiMessage, setLoading, setStreaming]
    · cases streamOk' : streamBody <;> cases fbOk <;>
        simp [runSubmit, hin, addUserMessage, addAiMessage, setLoading, setStreaming]
  · rcases hfb with rfl | rfl
    · cases streamOk <;> cases fbJson <;>
        simp [runSubmit, hin, addUserMessage, addAiMessage, setLoading, setStreaming]
    · cases streamOk <;> cases fbOk <;>
        simp [runSubmit, hin, addUserMessage, addAiMessage, setLoading, setStreaming]

/-- Witness for claim C5: HTTP failure on the stream and on the fallback. -/
theorem claim_c5_witness :
    (trimL (toL ("q")) ≠ [] ∧ ((false : Bool) = false ∨ (none : Option (List JStr)) = none)) ∧
    ((runSubmit initialState (toL ("q")) [] [] 0 0 0 ⟨false, none, false, none⟩).requests =
      [(ReqKind.streamReq, payloadOf initialState (toL ("q")) [] [] 0 0 0),
       (ReqKind.chatReq, payloadOf initialState (toL ("q")) [] [] 0 0 0)] ∧
     (payloadOf initialState (toL ("q")) [] [] 0 0 0).prompt = toL ("q") ∧
     (((false : Bool) = false ∨ (none : Option FallbackJson) = none) →
      (runSubmit initialState (toL ("q")) [] [] 0 0 0
          ⟨false, none, false, none⟩).state.messages =
        initialState.messages ++
          [⟨Role.user, toL ("q"), none, [], none⟩,
           ⟨Role.ai, sorryText, none, [], none⟩])) :=
  ⟨⟨by decide, Or.inl rfl⟩,
   claim_c5 initialState (toL ("q")) [] [] 0 0 0 false false none none
     (by decide) (Or.inl rfl)⟩

/-- Claim C2, amended.  For a stream consisting of an `error` frame, however
split across physical reads: the turn appends exactly one assistant message
whose content is the frame's error text prefixed with the literal
`Error: ` (not the bare error text the claim states), streaming stops
(`isStreaming` ends false), and no fallback request is made (the accepted
stream throws nothing, so the catch block is never entered).  The claim's
further statement that frames around the error frame are not treated as
valid fails: chunk frames before or after the error remain in the buffers
and the end-of-loop finalize appends them as a second assistant message
(see the counterexample). -/
theorem claim_c2 (st : ChatState) (input : JStr) (pending : List ChatAttachment)
    (docCtx : JStr) (now hh mm : Nat) (fbOk : Bool) (fbJson : Option FallbackJson)
    (errText : JStr) (reads : List JStr)
    (hin : trimL input ≠ [])
    (hjoin : joinL reads = encodeStream [SEvent.error errText]) :
    (runSubmit st input pending docCtx now hh mm
        ⟨true, some reads, fbOk, fbJson⟩).requests =
      [(ReqKind.streamReq, payloadOf st input pending docCtx now hh mm)] ∧
    (runSubmit st input pending docCtx now hh mm
        ⟨true, some reads, fbOk, fbJson⟩).state.messages =
      st.messages ++ [⟨Role.user, input, none, pending, none⟩,
                      ⟨Role.ai, toL ("Error: ") ++ errText, none, [], none⟩] ∧
    (runSubmit st input pending docCtx now hh mm
        ⟨true, some reads, fbOk, fbJson⟩).state.isStreaming = false ∧
    (runSubmit st input pending docCtx now hh mm
        ⟨true, some reads, fbOk, fbJson⟩).state.isLoading = false := by
  rcases reads with _ | ⟨a, rest⟩
  · exfalso
    have h0 : ([] : JStr) = encodeStream [SEvent.error errText] := hjoin
    simp [encodeStream, lineFor, dataLit, toL] at h0
  · have hrr : runReads now
        (setLoading (setStreaming (setLoading (addUserMessage st input pending now hh mm) true) true) false)
        [] (a :: rest) =
        ⟨(processLines now
            (setLoading (setStreaming (setLoading (addUserMessage st input pending now hh mm) true) true) false)
            ([SEvent.error errText].map lineFor)).1, [],
         (processLines now
            (setLoading (setStreaming (setLoading (addUserMessage st input pending now hh mm) true) true) false)
            ([SEvent.error errText].map lineFor)).2⟩ := by
      rw [runReads_join_cons now rest a _ [], hjoin]
      rw [show encodeStream [SEvent.error errText] =
        encodeStream [SEvent.error errText] ++ [] from (List.append_nil _).symm]
      exact runReads_single_stream now _ [SEvent.error errText] [] rfl
    set st4 := setLoading (setStreaming (setLoading (addUserMessage st input pending now hh mm) true) true) false with hst4
    have hpl : (processLines now st4 ([SEvent.error errText].map lineFor)).1 =
        setStreaming (addAiMessage st4 (toL ("Error: ") ++ errText) none now) false := by
      simp only [List.map_cons, List.map_nil, processLines, handleLine_eval]
    set st5 := setStreaming (addAiMessage st4 (toL ("Error: ") ++ errText) none now) false with hst5
    have hb1 : st5.streamingContent = [] := by
      simp [hst5, hst4, setStreaming, setLoading, addAiMessage, addUserMessage]
    have hb2 : st5.streamingReasoning = [] := by
      simp [hst5, hst4, setStreaming, setLoading, addAiMessage, addUserMessage]
    have hb3 : st5.streamingToolCalls = [] := by
      simp [hst5, hst4, setStreaming, setLoading, addAiMessage, addUserMessage]
    have hfin : finalizeStream st5 now = st5 :=
      finalize_clean st5 now (by rw [hb1]; rfl) (by rw [hb2]; rfl) hb3
    simp only [runSubmit]
    rw [if_neg hin]
    dsimp only
    rw [hrr]
    dsimp only
    rw [hpl, hfin]
    refine ⟨rfl, ?_, ?_, ?_⟩
    · simp [hst5, hst4, setStreaming, setLoading, addAiMessage, addUserMessage]
    · simp [hst5, setStreaming]
    · simp [hst5, hst4, setStreaming, setLoading, addAiMessage]

/-- Witness for claim C2: the error frame split across two reads. -/
theorem claim_c2_witness :
    (trimL (toL ("q")) ≠ [] ∧
     joinL [(encodeStream [SEvent.error (toL ("boom"))]).take 9,
            (encodeStream [SEvent.error (toL ("boom"))]).drop 9] =
       encodeStream [SEvent.error (toL ("boom"))]) ∧
    ((runSubmit initialState (toL ("q")) [] [] 0 0 0
        ⟨true, some [(encodeStream [SEvent.error (toL ("boom"))]).take 9,
                     (encodeStream [SEvent.error (toL ("boom"))]).drop 9],
         true, none⟩).requests =
      [(ReqKind.streamReq, payloadOf initialState (toL ("q")) [] [] 0 0 0)] ∧
     (runSubmit initialState (toL ("q")) [] [] 0 0 0
        ⟨true, some [(encodeStream [SEvent.error (toL ("boom"))]).take 9,
                     (encodeStream [SEvent.error (toL ("boom"))]).drop 9],
         true, none⟩).state.messages =
      initialState.messages ++
        [⟨Role.user, toL ("q"), none, [], none⟩,
         ⟨Role.ai, toL ("Error: ") ++ toL ("boom"), none, [], none⟩] ∧
     (runSubmit initialState (toL ("q")) [] [] 0 0 0
        ⟨true, some [(encodeStream [SEvent.error (toL ("boom"))]).take 9,
                     (encodeStream [SEvent.error (toL ("boom"))]).drop 9],
         true, none⟩).state.isStreaming = false ∧
     (runSubmit initialState (toL ("q")) [] [] 0 0 0
        ⟨true, some [(encodeStream [SEvent.error (toL ("boom"))]).take 9,
                     (encodeStream [SEvent.error (toL ("boom"))]).drop 9],
         true, none⟩).state.isLoading = false) :=
  ⟨⟨by decide, by decide⟩,
   claim_c2 initialState (toL ("q")) [] [] 0 0 0 true none (toL ("boom"))
     [(encodeStream [SEvent.error (toL ("boom"))]).take 9,
      (encodeStream [SEvent.error (toL ("boom"))]).drop 9]
     (by decide) (by decide)⟩

/-- Counterexample to claim C2 as stated: a content frame precedes the
error frame.  Two assistant messages are appended for the turn — the
prefixed error message and, at the end-of-loop finalize, the buffered
content — so "exactly one assistant message is appended for the turn" and
"its content is the literal error text" are both false on this input. -/
theorem claim_c2_cex :
    ((runSubmit initialState (toL ("q")) [] [] 0 0 0
      ⟨true, some [encodeStream [SEvent.content (toL ("hi")),
                                 SEvent.error (toL ("boom"))]],
       true, none⟩).state.messages.map (fun m => m.content) =
      [greeting.content, toL ("q"), toL ("Error: ") ++ toL ("boom"), toL ("hi")]) ∧
    ((runSubmit initialState (toL ("q")) [] [] 0 0 0
      ⟨true, some [encodeStream [SEvent.content (toL ("hi")),
                                 SEvent.error (toL ("boom"))]],
       true, none⟩).state.messages.filter (fun m => m.role == Role.ai)).length =
      (initialState.messages.filter (fun m => m.role == Role.ai)).length + 2 :=
  ⟨by decide, by decide⟩

/-- Claim C6, amended.  Across the submit/stream/finalize lifecycle started
from an idle store, at most one state can have both `isLoading` and
`isStreaming` set — and such a state does occur: on stream acceptance
`setStreaming(true)` runs before the following `setLoading(false)`, so the
single state between them has both flags true, contradicting the claim's
"at most one of the flags is true at any time" (see the counterexample).
After the turn ends `isLoading` is always false, and `isStreaming` is false
except after an accepted stream that ends with nothing buffered (no pending
content, reasoning, or tool calls), where the finalize guard fails and
`isStreaming` stays true. -/
theorem claim_c6 (st : ChatState) (input : JStr) (pending : List ChatAttachment)
    (docCtx : JStr) (now hh mm : Nat) (env : Env)
    (h0 : st.isLoading = false) (h1 : st.isStreaming = false) :
    ((runSubmit st input pending docCtx now hh mm env).trace.filter
        (fun s => s.isLoading && s.isStreaming)).length ≤ 1 ∧
    (runSubmit st input pending docCtx now hh mm env).state.isLoading = false ∧
    ((runSubmit st input pending docCtx now hh mm env).state.isStreaming = true →
      trimL (runSubmit st input pending docCtx now hh mm env).state.streamingContent = [] ∧
      trimL (runSubmit st input pending docCtx now hh mm env).state.streamingReasoning = [] ∧
      (runSubmit st input pending docCtx now hh mm env).state.streamingToolCalls = []) := by
  by_cases hin : trimL input = []
  · refine ⟨by simp [runSubmit, hin], by simpa [runSubmit, hin] using h0, ?_⟩
    intro hS
    have : st.isStreaming = true := by simpa [runSubmit, hin] using hS
    rw [h1] at this
    exact absurd this (by simp)
  · rcases env with ⟨so, sb, fo, fj⟩
    cases so with
    | false =>
      cases fo <;> cases fj <;> cases sb <;>
        refine ⟨?_, ?_, ?_⟩ <;>
        simp [runSubmit, hin, addUserMessage, addAiMessage, setLoading,
          setStreaming, h0, h1]
    | true =>
      cases sb with
      | none =>
        cases fo <;> cases fj <;>
          refine ⟨?_, ?_, ?_⟩ <;>
          simp [runSubmit, hin, addUserMessage, addAiMessage, setLoading,
            setStreaming, h0, h1]
      | some reads =>
        have hst4L : (setLoading (setStreaming (setLoading
            (addUserMessage st input pending now hh mm) true) true) false).isLoading =
            false := rfl
        obtain ⟨hrL, hrT⟩ := runReads_loading now reads _ [] hst4L
        refine ⟨?_, ?_, ?_⟩
        · simp only [runSubmit]
          rw [if_neg hin]
          dsimp only
          rw [List.filter_append, List.filter_append]
          have hmid : (runReads now (setLoading (setStreaming (setLoading
              (addUserMessage st input pending now hh mm) true) true) false)
              [] reads).tr.filter (fun s => s.isLoading && s.isStreaming) = [] := by
            rw [List.filter_eq_nil_iff]
            intro s hs
            simp [hrT s hs]
          have hlast : ([finalizeStream (runReads now (setLoading (setStreaming
              (setLoading (addUserMessage st input pending now hh mm) true) true)
              false) [] reads).st now].filter
              (fun s => s.isLoading && s.isStreaming)) = [] := by
            rw [List.filter_eq_nil_iff]
            intro s hs
            simp only [List.mem_singleton] at hs
            subst hs
            simp [finalize_isLoading, hrL]
          rw [hmid, hlast]
          simp [addUserMessage, setLoading, setStreaming, h0, h1]
        · simp only [runSubmit]
          rw [if_neg hin]
          dsimp only
          rw [finalize_isLoading]
          exact hrL
        · intro hS
          simp only [runSubmit] at hS ⊢
          rw [if_neg hin] at hS ⊢
          dsimp only at hS ⊢
          exact finalize_streaming_clean _ now hS

/-- Witness for claim C6: a successful streamed turn from the idle store. -/
theorem claim_c6_witness :
    (initialState.isLoading = false ∧ initialState.isStreaming = false) ∧
    (((runSubmit initialState (toL ("q")) [] [] 0 0 0
        ⟨true, some [encodeStream [SEvent.content (toL ("hi")), SEvent.done]],
         true, none⟩).trace.filter
        (fun s => s.isLoading && s.isStreaming)).length ≤ 1 ∧
     (runSubmit initialState (toL ("q")) [] [] 0 0 0
        ⟨true, some [encodeStream [SEvent.content (toL ("hi")), SEvent.done]],
         true, none⟩).state.isLoading = false ∧
     ((runSubmit initialState (toL ("q")) [] [] 0 0 0
        ⟨true, some [encodeStream [SEvent.content (toL ("hi")), SEvent.done]],
         true, none⟩).state.isStreaming = true →
      trimL (runSubmit initialState (toL ("q")) [] [] 0 0 0
        ⟨true, some [encodeStream [SEvent.content (toL ("hi")), SEvent.done]],
         true, none⟩).state.streamingContent = [] ∧
      trimL (runSubmit initialState (toL ("q")) [] [] 0 0 0
        ⟨true, some [encodeStream [SEvent.content (toL ("hi")), SEvent.done]],
         true, none⟩).state.streamingReasoning = [] ∧
      (runSubmit initialState (toL ("q")) [] [] 0 0 0
        ⟨true, some [encodeStream [SEvent.content (toL ("hi")), SEvent.done]],
         true, none⟩).state.streamingToolCalls = [])) :=
  ⟨⟨rfl, rfl⟩,
   claim_c6 initialState (toL ("q")) [] [] 0 0 0
     ⟨true, some [encodeStream [SEvent.content (toL ("hi")), SEvent.done]],
      true, none⟩ rfl rfl⟩

/-- Counterexample to claim C6 as stated: on stream acceptance the code runs
`setStreaming(true)` before `setLoading(false)` (MentorChat.tsx lines
233-234), so the lifecycle passes through a state with both flags true. -/
theorem claim_c6_cex :
    ((runSubmit initialState (toL ("q")) [] [] 0 0 0
      ⟨true, some [encodeStream [SEvent.content (toL ("hi")), SEvent.done]],
       true, none⟩).trace.any (fun s => s.isLoading && s.isStreaming)) = true := by
  decide

/-! ## The conversation-collection invariant -/

theorem mem_upsert_ids : ∀ (l : List ChatConversation) (c : ChatConversation)
    (j : JStr), j ∈ (upsertConversation l c).map (fun d => d.id) →
    j ∈ l.map (fun d => d.id) ∨ j = c.id := by
  intro l
  induction l with
  | nil => intro c j h; simp [upsertConversation] at h; exact Or.inr h
  | cons x xs ih =>
    intro c j h
    simp only [upsertConversation] at h
    by_cases hx : x.id = c.id
    · rw [if_pos hx] at h
      simp only [List.map_cons, List.mem_cons] at h
      rcases h with rfl | h
      · exact Or.inr rfl
      · exact Or.inl (by simp [h])
    · rw [if_neg hx] at h
      simp only [List.map_cons, List.mem_cons] at h
      rcases h with rfl | h
      · exact Or.inl (by simp)
      · rcases ih c j h with h' | h'
        · exact Or.inl (by simp [h'])
        · exact Or.inr h'

theorem upsert_ids_nodup : ∀ (l : List ChatConversation) (c : ChatConversation),
    (l.map (fun d => d.id)).Nodup →
    ((upsertConversation l c).map (fun d => d.id)).Nodup := by
  intro l
  induction l with
  | nil => intro c _; simp [upsertConversation]
  | cons x xs ih =>
    intro c h
    simp only [List.map_cons, List.nodup_cons] at h
    obtain ⟨hx, hxs⟩ := h
    simp only [upsertConversation]
    by_cases hid : x.id = c.id
    · rw [if_pos hid]
      simp only [List.map_cons, List.nodup_cons]
      exact ⟨by rw [← hid]; exact hx, hxs⟩
    · rw [if_neg hid]
      simp only [List.map_cons, List.nodup_cons]
      refine ⟨?_, ih c hxs⟩
      intro hc
      rcases mem_upsert_ids xs c x.id hc with h' | h'
      · exact hx h'
      · exact hid h'

theorem upsert_mem_self : ∀ (l : List ChatConversation) (c : ChatConversation),
    ∃ d ∈ upsertConversation l c, d.id = c.id := by
  intro l
  induction l with
  | nil => intro c; exact ⟨c, by simp [upsertConversation]⟩
  | cons x xs ih =>
    intro c
    simp only [upsertConversation]
    by_cases hid : x.id = c.id
    · rw [if_pos hid]
      exact ⟨c, by simp⟩
    · rw [if_neg hid]
      obtain ⟨d, hd, hdi⟩ := ih c
      exact ⟨d, by simp [hd], hdi⟩

theorem inv_upsert_current (convos : List ChatConversation)
    (c : ChatConversation)
    (hn : (convos.map (fun d => d.id)).Nodup) :
    ((upsertConversation convos c).map (fun d => d.id)).Nodup ∧
    ∃ d ∈ upsertConversation convos c, d.id = c.id :=
  ⟨upsert_ids_nodup convos c hn, upsert_mem_self convos c⟩

theorem inv_addUser (st : ChatState) (content : JStr)
    (atts : List ChatAttachment) (now hh mm : Nat) (inv : StoreInv st) :
    StoreInv (addUserMessage st content atts now hh mm) := by
  obtain ⟨h1, h2⟩ := inv_upsert_current st.conversations _ inv.1
  exact ⟨h1, h2⟩

theorem inv_addAi (st : ChatState) (content : JStr) (thinking : Option JStr)
    (now : Nat) (inv : StoreInv st) :
    StoreInv (addAiMessage st content thinking now) := by
  obtain ⟨h1, h2⟩ := inv_upsert_current st.conversations _ inv.1
  exact ⟨h1, h2⟩

theorem inv_finalize (st : ChatState) (now : Nat) (inv : StoreInv st) :
    StoreInv (finalizeStream st now) := by
  by_cases hg : trimL st.streamingContent ≠ [] ∨ trimL st.streamingReasoning ≠ [] ∨
      st.streamingToolCalls ≠ []
  · unfold StoreInv
    simp only [finalizeStream]
    rw [if_pos hg]
    constructor
    · exact upsert_ids_nodup _ _ inv.1
    · obtain ⟨d, hd, hdi⟩ := upsert_mem_self st.conversations _
      exact ⟨d, hd, hdi⟩
  · have he : finalizeStream st now = st := by
      simp only [finalizeStream]
      rw [if_neg hg]
    rw [he]
    exact inv

theorem inv_load (st : ChatState) (id : JStr) (inv : StoreInv st) :
    StoreInv (loadConversation st id) := by
  simp only [loadConversation]
  cases hf : st.conversations.find? (fun c => c.id == id) with
  | none => exact inv
  | some convo =>
    refine ⟨inv.1, ?_⟩
    exact ⟨convo, List.mem_of_find?_eq_some hf, rfl⟩

theorem inv_delete (st : ChatState) (id : JStr) (inv : StoreInv st) :
    StoreInv (deleteConversation st id) := by
  have hnd : ((st.conversations.filter (fun c => c.id != id)).map
      (fun d => d.id)).Nodup :=
    ((List.filter_sublist st.conversations).map (fun d => d.id)).nodup inv.1
  simp only [deleteConversation]
  by_cases hc : st.currentConversationId = some id
  · rw [if_pos hc]
    exact ⟨hnd, trivial⟩
  · rw [if_neg hc]
    refine ⟨hnd, ?_⟩
    cases hcur : st.currentConversationId with
    | none => trivial
    | some j =>
      have hj : j ≠ id := by
        intro hji
        rw [hcur, hji] at hc
        exact hc rfl
      have inv2 := inv.2
      rw [hcur] at inv2
      obtain ⟨c, hcm, hcj⟩ := inv2
      refine ⟨c, ?_, hcj⟩
      rw [List.mem_filter]
      refine ⟨hcm, ?_⟩
      simp [bne_iff_ne, hcj, hj]

theorem inv_newChat (st : ChatState) (inv : StoreInv st) :
    StoreInv (startNewChat st) := ⟨inv.1, trivial⟩

theorem inv_reset (st : ChatState) (inv : StoreInv st) :
    StoreInv (resetStore st) := ⟨inv.1, trivial⟩

theorem inv_rename (st : ChatState) (id title : JStr) (now : Nat)
    (inv : StoreInv st) : StoreInv (renameConversation st id title now) := by
  have hcc : (renameConversation st id title now).currentConversationId =
      st.currentConversationId := rfl
  have hconv : (renameConversation st id title now).conversations =
      st.conversations.map (fun c =>
        if c.id = id then { c with title := title, updatedAt := now } else c) := rfl
  unfold StoreInv
  rw [hcc, hconv]
  constructor
  · rw [List.map_map]
    have hfe : ((fun c : ChatConversation => c.id) ∘ (fun c =>
        if c.id = id then { c with title := title, updatedAt := now } else c)) =
        fun c : ChatConversation => c.id := by
      funext c
      by_cases hc : c.id = id <;> simp [hc]
    rw [hfe]
    exact inv.1
  · cases hcur : st.currentConversationId with
    | none => trivial
    | some j =>
      have inv2 := inv.2
      rw [hcur] at inv2
      obtain ⟨c, hcm, hcj⟩ := inv2
      refine ⟨if c.id = id then { c with title := title, updatedAt := now } else c,
        List.mem_map_of_mem _ hcm, ?_⟩
      by_cases hc : c.id = id
      · rw [if_pos hc]
        exact hcj
      · rw [if_neg hc]
        exact hcj

/-- Claim C9.  After every sequence of the eight store operations applied to
the initial store, every stored conversation has a unique id, and the
current conversation id is either null or the id of a stored conversation. -/
theorem claim_c9 : ∀ ops : List Op, StoreInv (runOps ops) := by
  have step : ∀ st op, StoreInv st → StoreInv (applyOp st op) := by
    intro st op inv
    cases op with
    | opAddUser content atts now hh mm => exact inv_addUser st content atts now hh mm inv
    | opAddAi content thinking now => exact inv_addAi st content thinking now inv
    | opFinalize now => exact inv_finalize st now inv
    | opLoad id => exact inv_load st id inv
    | opDelete id => exact inv_delete st id inv
    | opNewChat => exact inv_newChat st inv
    | opRename id title now => exact inv_rename st id title now inv
    | opReset => exact inv_reset st inv
  have init : StoreInv initialState := ⟨by simp [initialState], trivial⟩
  have gen : ∀ (ops : List Op) (st : ChatState), StoreInv st →
      StoreInv (ops.foldl applyOp st) := by
    intro ops
    induction ops with
    | nil => intro st inv; exact inv
    | cons op rest ih =>
      intro st inv
      exact ih (applyOp st op) (step st op inv)
  intro ops
  exact gen ops initialState init

/-! ## Conversation creation and title stability -/

theorem upsert_find_self : ∀ (l : List ChatConversation) (c : ChatConversation)
    (j : JStr), c.id = j →
    (upsertConversation l c).find? (fun d => d.id == j) = some c := by
  intro l
  induction l with
  | nil =>
    intro c j hj
    simp [upsertConversation, List.find?, hj]
  | cons x xs ih =>
    intro c j hj
    simp only [upsertConversation]
    by_cases hx : x.id = c.id
    · rw [if_pos hx]
      simp [List.find?, hj]
    · rw [if_neg hx]
      have hxj : (x.id == j) = false := by
        rw [← hj]
        simp [hx]
      simp [List.find?, hxj, ih c j hj]

theorem upsert_length_absent : ∀ (l : List ChatConversation)
    (c : ChatConversation), (∀ d ∈ l, d.id ≠ c.id) →
    upsertConversation l c = l ++ [c] := by
  intro l
  induction l with
  | nil => intro c _; rfl
  | cons x xs ih =>
    intro c h
    simp only [upsertConversation]
    rw [if_neg (h x (by simp))]
    rw [ih c (fun d hd => h d (by simp [hd]))]
    rfl

theorem upsert_length_present : ∀ (l : List ChatConversation)
    (c : ChatConversation), (∃ d ∈ l, d.id = c.id) →
    (upsertConversation l c).length = l.length := by
  intro l
  induction l with
  | nil => intro c h; simp at h
  | cons x xs ih =>
    intro c h
    simp only [upsertConversation]
    by_cases hx : x.id = c.id
    · rw [if_pos hx]
      simp
    · rw [if_neg hx]
      obtain ⟨d, hd, hdi⟩ := h
      simp only [List.mem_cons] at hd
      rcases hd with rfl | hd
      · exact absurd hdi hx
      · simp [ih c ⟨d, hd, hdi⟩]

/-- Evaluation of `addUserMessage` on a store with no current conversation
and no user message yet: the fresh conversation gets the time-derived id
and the placeholder title. -/
theorem addUserMessage_fresh (s : ChatState)
    (h1 : s.currentConversationId = none)
    (hnf : (s.messages.filter (fun m => m.role == Role.user)).length = 0)
    (i : JStr) (a : List ChatAttachment) (n hh mm : Nat) :
    addUserMessage s i a n hh mm = { s with
      messages := s.messages ++ [⟨Role.user, i, none, a, none⟩],
      currentConversationId := some (chatId n),
      conversations := upsertConversation s.conversations
        ⟨chatId n, generatePlaceholderTitle hh mm,
         s.messages ++ [⟨Role.user, i, none, a, none⟩], n, n⟩ } := by
  simp only [addUserMessage, h1, Option.isSome_none]
  rw [if_pos hnf]
  simp

/-- Evaluation of `addUserMessage` on a store whose current conversation is
stored with a non-empty title and which already holds a user message: the
stored title is kept. -/
theorem addUserMessage_known (s : ChatState) (cid : JStr)
    (h1 : s.currentConversationId = some cid)
    (c0 : ChatConversation)
    (hf : s.conversations.find? (fun c => c.id == cid) = some c0)
    (hne : c0.title ≠ [])
    (hnf : ¬ (s.messages.filter (fun m => m.role == Role.user)).length = 0)
    (i : JStr) (a : List ChatAttachment) (n hh mm : Nat) :
    addUserMessage s i a n hh mm = { s with
      messages := s.messages ++ [⟨Role.user, i, none, a, none⟩],
      currentConversationId := some cid,
      conversations := upsertConversation s.conversations
        ⟨cid, c0.title, s.messages ++ [⟨Role.user, i, none, a, none⟩],
         if c0.createdAt = 0 then n else c0.createdAt, n⟩ } := by
  simp only [addUserMessage, h1, Option.isSome_some]
  rw [if_neg hnf, hf]
  simp only [if_pos, if_true]
  rw [if_neg hne]

/-- One further `addUserMessage` on a conversation that already has a user
message keeps the conversation count, the stored title, and the current id. -/
theorem addUser_keeps (cid : JStr) (s : ChatState)
    (h1 : s.currentConversationId = some cid)
    (h2 : ∃ c0, s.conversations.find? (fun c => c.id == cid) = some c0 ∧
      c0.title ≠ [])
    (h3 : ∃ m ∈ s.messages, m.role = Role.user)
    (i : JStr) (a : List ChatAttachment) (n hh mm : Nat) :
    (addUserMessage s i a n hh mm).currentConversationId = some cid ∧
    (∃ c1, (addUserMessage s i a n hh mm).conversations.find?
        (fun c => c.id == cid) = some c1 ∧
      c1.title = (Option.map (fun c => c.title)
        (s.conversations.find? (fun c => c.id == cid))).getD [] ∧
      c1.title ≠ []) ∧
    (∃ m ∈ (addUserMessage s i a n hh mm).messages, m.role = Role.user) ∧
    (addUserMessage s i a n hh mm).conversations.length =
      s.conversations.length := by
  obtain ⟨c0, hf, hne⟩ := h2
  have hnf : ¬ (s.messages.filter (fun m => m.role == Role.user)).length = 0 := by
    obtain ⟨m0, hm0, hr0⟩ := h3
    have : m0 ∈ s.messages.filter (fun m => m.role == Role.user) := by
      rw [List.mem_filter]
      exact ⟨hm0, by simp [hr0]⟩
    intro hz
    rw [List.length_eq_zero] at hz
    rw [hz] at this
    exact absurd this (by simp)
  have heval := addUserMessage_known s cid h1 c0 hf hne hnf i a n hh mm
  rw [heval]
  have hmemc0 : c0 ∈ s.conversations := List.mem_of_find?_eq_some hf
  have hc0id : c0.id = cid := by
    have := List.find?_some hf
    simpa using this
  refine ⟨rfl, ?_, ?_, ?_⟩
  · refine ⟨⟨cid, c0.title, s.messages ++ [⟨Role.user, i, none, a, none⟩],
      if c0.createdAt = 0 then n else c0.createdAt, n⟩, ?_, ?_, hne⟩
    · exact upsert_find_self s.conversations _ cid rfl
    · rw [hf]
      rfl
  · exact ⟨⟨Role.user, i, none, a, none⟩, by simp, rfl⟩
  · exact upsert_length_present s.conversations _ ⟨c0, hmemc0, by simp [hc0id]⟩

/-- Claim C7.  On a store with no current conversation (and hence, as the
store's own operations guarantee, no user message in the active list and no
stale conversation bearing the fresh time-derived id), `addUserMessage`
creates exactly one new conversation: the current id becomes `chat-<now>`,
the conversation count grows by one, and the new conversation's title is
`New chat HH:MM` built from the wall clock; any sequence of further
`addUserMessage` calls creates no further conversation and never changes
that title. -/
theorem claim_c7 (st : ChatState) (in1 : JStr) (att1 : List ChatAttachment)
    (now1 hh1 mm1 : Nat)
    (hcur : st.currentConversationId = none)
    (hnou : ∀ m ∈ st.messages, m.role ≠ Role.user)
    (hfresh : ∀ c ∈ st.conversations, c.id ≠ chatId now1) :
    (addUserMessage st in1 att1 now1 hh1 mm1).currentConversationId =
      some (chatId now1) ∧
    (addUserMessage st in1 att1 now1 hh1 mm1).conversations.length =
      st.conversations.length + 1 ∧
    ((addUserMessage st in1 att1 now1 hh1 mm1).conversations.find?
        (fun c => c.id == chatId now1)).map (fun c => c.title) =
      some (toL ("New chat ") ++ pad2 hh1 ++ ':' :: pad2 mm1) ∧
    ∀ calls : List (JStr × List ChatAttachment × Nat × Nat × Nat),
      (calls.foldl (fun s q => addUserMessage s q.1 q.2.1 q.2.2.1 q.2.2.2.1 q.2.2.2.2)
          (addUserMessage st in1 att1 now1 hh1 mm1)).conversations.length =
        (addUserMessage st in1 att1 now1 hh1 mm1).conversations.length ∧
      ((calls.foldl (fun s q => addUserMessage s q.1 q.2.1 q.2.2.1 q.2.2.2.1 q.2.2.2.2)
          (addUserMessage st in1 att1 now1 hh1 mm1)).conversations.find?
          (fun c => c.id == chatId now1)).map (fun c => c.title) =
        some (toL ("New chat ") ++ pad2 hh1 ++ ':' :: pad2 mm1) ∧
      (calls.foldl (fun s q => addUserMessage s q.1 q.2.1 q.2.2.1 q.2.2.2.1 q.2.2.2.2)
          (addUserMessage st in1 att1 now1 hh1 mm1)).currentConversationId =
        some (chatId now1) := by
  have hnf : (st.messages.filter (fun m => m.role == Role.user)).length = 0 := by
    rw [List.length_eq_zero, List.filter_eq_nil_iff]
    intro m hm
    simp [hnou m hm]
  have heval := addUserMessage_fresh st hcur hnf in1 att1 now1 hh1 mm1
  have habsent : ∀ d ∈ st.conversations,
      d.id ≠ (⟨chatId now1, generatePlaceholderTitle hh1 mm1,
        st.messages ++ [⟨Role.user, in1, none, att1, none⟩], now1, now1⟩ :
        ChatConversation).id := fun d hd => hfresh d hd
  have hup := upsert_length_absent st.conversations _ habsent
  have hfind := upsert_find_self st.conversations
    ⟨chatId now1, generatePlaceholderTitle hh1 mm1,
      st.messages ++ [⟨Role.user, in1, none, att1, none⟩], now1, now1⟩
    (chatId now1) rfl
  have h1 : (addUserMessage st in1 att1 now1 hh1 mm1).currentConversationId =
      some (chatId now1) := by rw [heval]
  have h2 : (addUserMessage st in1 att1 now1 hh1 mm1).conversations.length =
      st.conversations.length + 1 := by
    rw [heval]
    show (upsertConversation st.conversations _).length = _
    rw [hup]
    simp
  have h3 : ((addUserMessage st in1 att1 now1 hh1 mm1).conversations.find?
      (fun c => c.id == chatId now1)).map (fun c => c.title) =
      some (toL ("New chat ") ++ pad2 hh1 ++ ':' :: pad2 mm1) := by
    rw [heval]
    show ((upsertConversation st.conversations _).find?
      (fun c => c.id == chatId now1)).map (fun c => c.title) = _
    rw [hfind]
    rfl
  refine ⟨h1, h2, h3, ?_⟩
  have main : ∀ (calls : List (JStr × List ChatAttachment × Nat × Nat × Nat))
      (s : ChatState),
      s.currentConversationId = some (chatId now1) →
      (∃ c0, s.conversations.find? (fun c => c.id == chatId now1) = some c0 ∧
        c0.title = toL ("New chat ") ++ pad2 hh1 ++ ':' :: pad2 mm1 ∧
        c0.title ≠ []) →
      (∃ m ∈ s.messages, m.role = Role.user) →
      ((calls.foldl (fun s q => addUserMessage s q.1 q.2.1 q.2.2.1 q.2.2.2.1 q.2.2.2.2)
          s).conversations.length = s.conversations.length ∧
       ((calls.foldl (fun s q => addUserMessage s q.1 q.2.1 q.2.2.1 q.2.2.2.1 q.2.2.2.2)
          s).conversations.find? (fun c => c.id == chatId now1)).map
          (fun c => c.title) =
        some (toL ("New chat ") ++ pad2 hh1 ++ ':' :: pad2 mm1) ∧
       (calls.foldl (fun s q => addUserMessage s q.1 q.2.1 q.2.2.1 q.2.2.2.1 q.2.2.2.2)
          s).currentConversationId = some (chatId now1)) := by
    intro calls
    induction calls with
    | nil =>
      intro s hs1 hs2 _
      obtain ⟨c0, hf0, ht0, _⟩ := hs2
      exact ⟨rfl, by rw [List.foldl_nil, hf0]; simp [ht0], hs1⟩
    | cons q rest ih =>
      intro s hs1 hs2 hs3
      obtain ⟨c0, hf0, ht0, htne⟩ := hs2
      obtain ⟨k1, k2, k3, k4⟩ := addUser_keeps (chatId now1) s hs1
        ⟨c0, hf0, htne⟩ hs3 q.1 q.2.1 q.2.2.1 q.2.2.2.1 q.2.2.2.2
      obtain ⟨c1, hfc1, htc1, hnec1⟩ := k2
      have ht1 : c1.title = toL ("New chat ") ++ pad2 hh1 ++ ':' :: pad2 mm1 := by
        rw [htc1, hf0]
        simpa using ht0
      obtain ⟨r1, r2, r3⟩ := ih (addUserMessage s q.1 q.2.1 q.2.2.1 q.2.2.2.1 q.2.2.2.2)
        k1 ⟨c1, hfc1, ht1, hnec1⟩ k3
      rw [List.foldl_cons]
      exact ⟨by rw [r1, k4], r2, r3⟩
  intro calls
  refine main calls (addUserMessage st in1 att1 now1 hh1 mm1) h1 ?_ ?_
  · refine ⟨⟨chatId now1, generatePlaceholderTitle hh1 mm1,
      st.messages ++ [⟨Role.user, in1, none, att1, none⟩], now1, now1⟩, ?_, rfl, ?_⟩
    · rw [heval]
      exact hfind
    · simp [generatePlaceholderTitle, toL]
  · rw [heval]
    exact ⟨⟨Role.user, in1, none, att1, none⟩, by simp, rfl⟩

/-- Witness for claim C7: first user message at 09:05, then a second one. -/
theorem claim_c7_witness :
    (initialState.currentConversationId = none ∧
     (∀ m ∈ initialState.messages, m.role ≠ Role.user) ∧
     (∀ c ∈ initialState.conversations, c.id ≠ chatId 1234)) ∧
    (addUserMessage initialState (toL ("hello")) [] 1234 9 5).currentConversationId =
      some (chatId 1234) ∧
    (addUserMessage initialState (toL ("hello")) [] 1234 9 5).conversations.length =
      initialState.conversations.length + 1 ∧
    ((addUserMessage initialState (toL ("hello")) [] 1234 9 5).conversations.find?
        (fun c => c.id == chatId 1234)).map (fun c => c.title) =
      some (toL ("New chat ") ++ pad2 9 ++ ':' :: pad2 5) ∧
    (([((toL ("more")), ([] : List ChatAttachment), 5678, 10, 6)].foldl
        (fun s q => addUserMessage s q.1 q.2.1 q.2.2.1 q.2.2.2.1 q.2.2.2.2)
        (addUserMessage initialState (toL ("hello")) [] 1234 9 5)).conversations.length =
      (addUserMessage initialState (toL ("hello")) [] 1234 9 5).conversations.length ∧
     (([((toL ("more")), ([] : List ChatAttachment), 5678, 10, 6)].foldl
        (fun s q => addUserMessage s q.1 q.2.1 q.2.2.1 q.2.2.2.1 q.2.2.2.2)
        (addUserMessage initialState (toL ("hello")) [] 1234 9 5)).conversations.find?
        (fun c => c.id == chatId 1234)).map (fun c => c.title) =
      some (toL ("New chat ") ++ pad2 9 ++ ':' :: pad2 5) ∧
     ([((toL ("more")), ([] : List ChatAttachment), 5678, 10, 6)].foldl
        (fun s q => addUserMessage s q.1 q.2.1 q.2.2.1 q.2.2.2.1 q.2.2.2.2)
        (addUserMessage initialState (toL ("hello")) [] 1234 9 5)).currentConversationId =
      some (chatId 1234)) :=
  ⟨⟨rfl, by decide, by decide⟩,
   (claim_c7 initialState (toL ("hello")) [] 1234 9 5 rfl (by decide) (by decide)).1,
   (claim_c7 initialState (toL ("hello")) [] 1234 9 5 rfl (by decide) (by decide)).2.1,
   (claim_c7 initialState (toL ("hello")) [] 1234 9 5 rfl (by decide) (by decide)).2.2.1,
   (claim_c7 initialState (toL ("hello")) [] 1234 9 5 rfl (by decide) (by decide)).2.2.2
     [((toL ("more")), ([] : List ChatAttachment), 5678, 10, 6)]⟩

/-! ## The attachment-context builder (C8) -/

theorem contains_append {α : Type} [BEq α] (l₁ l₂ : List α) (x : α) :
    (l₁ ++ l₂).contains x = (l₁.contains x || l₂.contains x) := by
  induction l₁ with
  | nil => simp [List.contains_cons]
  | cons a r ih => simp [List.contains_cons, ih, Bool.or_assoc]

/-- Every attachment kind is `image`, so the kind filter of
`buildImageContext` keeps every stored attachment. -/
theorem filter_image_id (l : List ChatAttachment) :
    l.filter (fun a => a.kind == AttKind.image) = l := by
  induction l with
  | nil => rfl
  | cons a r ih =>
    have hk : (a.kind == AttKind.image) = true := by cases a.kind; rfl
    simp [List.filter_cons, hk, ih]

/-- Generalised correspondence between the source recursive `Set`-based
deduplication and the spec-side fold, for any accumulator whose ids are
exactly the seen set. -/
theorem dedup_fold_go (l : List ChatAttachment) :
    ∀ (acc : List ChatAttachment) (seen : List JStr),
      (∀ x : JStr, seen.contains x = (acc.map (fun b => b.id)).contains x) →
      acc ++ dedupById l seen =
        l.foldl (fun acc a =>
          if (acc.map (fun b => b.id)).contains a.id then acc else acc ++ [a]) acc := by
  induction l with
  | nil => intro acc seen h; simp [dedupById]
  | cons a r ih =>
    intro acc seen h
    cases hc : seen.contains a.id with
    | true =>
      have hc2 : (acc.map (fun b => b.id)).contains a.id = true := by rw [← h]; exact hc
      simp only [dedupById, hc, if_true, List.foldl_cons, hc2]
      exact ih acc seen h
    | false =>
      have hc2 : (acc.map (fun b => b.id)).contains a.id = false := by rw [← h]; exact hc
      have hmem : ∀ x : JStr, (a.id :: seen).contains x =
          (((acc ++ [a]).map (fun b => b.id)).contains x) := by
        intro x
        rw [List.contains_cons, List.map_append, contains_append, h x]
        simp only [List.map_cons, List.map_nil, List.contains_cons]
        have hn : ([] : List JStr).contains x = false := rfl
        rw [hn, Bool.or_false]
        exact Bool.or_comm _ _
      have hl : acc ++ dedupById (a :: r) seen =
          (acc ++ [a]) ++ dedupById r (a.id :: seen) := by
        simp only [dedupById]
        rw [if_neg (by rw [hc]; exact Bool.false_ne_true)]
        simp
      have hstep : (if (List.map (fun b => b.id) acc).contains a.id = true
          then acc else acc ++ [a]) = acc ++ [a] := by
        rw [if_neg (by rw [hc2]; exact Bool.false_ne_true)]
      rw [hl, ih (acc ++ [a]) (a.id :: seen) hmem]
      simp only [List.foldl_cons]
      rw [hstep]

/-- The source deduplication from the empty seen set equals the spec-side
fold over an empty accumulator. -/
theorem dedupById_eq_fold (l : List ChatAttachment) :
    dedupById l [] =
      l.foldl (fun acc a =>
        if (acc.map (fun b => b.id)).contains a.id then acc else acc ++ [a]) [] := by
  have h := dedup_fold_go l [] [] (by intro x; rfl)
  simpa using h

/-- Taking the last `n` elements by double reversal equals dropping the
length-minus-`n` prefix. -/
theorem take_last_eq_drop (l : List ChatAttachment) (n : Nat) :
    (l.reverse.take n).reverse = l.drop (l.length - n) := by
  rw [List.take_reverse, List.reverse_reverse]

/-- C8: `buildImageContext` deduplicates the stored-then-pending image
attachments by id preserving first-seen order, keeps the most recent six of
the deduplicated list (eight distinct attachments yield exactly the last
six, in order), joins the four-line blocks with a blank line and returns
the empty string for an empty deduplicated set: it coincides with the
specification-worded builder, and a deduplicated list of length eight is
cut to its final six elements. -/
theorem claim_c8 (st : ChatState) (pending : List ChatAttachment) :
    buildImageContext st pending =
      specImageContext ((st.messages.map (fun m => m.attachments)).flatten) pending ∧
    (∀ combined : List ChatAttachment,
      (dedupById combined []).length = 8 →
      ((dedupById combined []).drop ((dedupById combined []).length - 6)).length = 6 ∧
      (dedupById combined []).drop ((dedupById combined []).length - 6) =
        (dedupById combined []).drop 2) := by
  constructor
  · simp only [buildImageContext, specImageContext]
    rw [filter_image_id, ← dedupById_eq_fold, take_last_eq_drop]
    by_cases h0 :
        (dedupById ((st.messages.map (fun m => m.attachments)).flatten ++ pending) []).length = 0
    · rw [if_pos h0, List.length_eq_zero.mp h0]
      simp
    · rw [if_neg h0]
      have hne :
          ¬ ((dedupById ((st.messages.map (fun m => m.attachments)).flatten ++ pending)
              []).drop
            ((dedupById ((st.messages.map (fun m => m.attachments)).flatten ++ pending)
              []).length - 6)).isEmpty = true := by
        rw [List.isEmpty_iff, List.drop_eq_nil_iff]
        omega
      rw [if_neg hne]
  · intro combined h8
    refine ⟨?_, ?_⟩
    · have hd := List.length_drop ((dedupById combined []).length - 6) (dedupById combined [])
      omega
    · have h2 : (dedupById combined []).length - 6 = 2 := by omega
      rw [h2]

/-- Concrete instantiation of the attachment-context claim at eight
pairwise-distinct images: the builder agrees with the spec-worded builder
and keeps exactly the last six. -/
theorem claim_c8_witness :
    (dedupById wAtts []).length = 8 ∧
    buildImageContext initialState wAtts =
      specImageContext ((initialState.messages.map (fun m => m.attachments)).flatten) wAtts ∧
    ((dedupById wAtts []).drop ((dedupById wAtts []).length - 6)).length = 6 ∧
    (dedupById wAtts []).drop ((dedupById wAtts []).length - 6) = (dedupById wAtts []).drop 2 :=
  ⟨by decide, (claim_c8 initialState wAtts).1,
   ((claim_c8 initialState wAtts).2 wAtts (by decide)).1,
   ((claim_c8 initialState wAtts).2 wAtts (by decide)).2⟩
